import Mathlib

/-!
# Verification of the FutureSDR protocol-detector core

Shallow embedding of the detection/routing subsystem of the
`examples/protocol_detector` crate: the time-domain `ProtocolDetector`
(`src/detector.rs`), the FFT-accelerated `ProtocolDetectorFFT`
(`src/protocol_detector_fft.rs`), and the `MultiPortInserter`
(`src/multi_port_inserter.rs`).

Complex baseband samples (`Complex32` in the source) are modelled as `ℂ`;
`f32` arithmetic is idealised as exact real arithmetic, with `f32::sqrt`
modelled by `Real.sqrt`.  `usize` values are `ℕ`, with Rust's
`saturating_sub` mapped to truncated subtraction.  Slice indexing that can
panic in Rust is modelled by `Except String` results: a returned
`.error` marks an execution on which the Rust code panics (or calls
`exit(1)`).  Buffer views are modelled by the list of available input
samples plus per-lane output capacities; the samples a work cycle writes
to lane `p` are collected in a list per lane.
-/

open scoped BigOperators

namespace FutureSDR

/-- Square-root norm `sqrt (Σ |x|²)` of a complex vector, as computed by
`Sequence::new` and by the free `normalized_dot_product` in `lib.rs`. -/
noncomputable def sqrtNorm (data : List ℂ) : ℝ :=
  Real.sqrt ((data.map Complex.normSq).sum)

/-- `Sequence` from `detector.rs`: sample data, threshold, precomputed norm. -/
structure Sequence where
  data : List ℂ
  threshold : ℝ
  norm : ℝ

/-- `Sequence::new`: the norm is precomputed as `sqrt (Σ |x|²)`. -/
noncomputable def Sequence.new (data : List ℂ) (threshold : ℝ) : Sequence :=
  { data := data, threshold := threshold, norm := sqrtNorm data }

/-- `Protocol` from `detector.rs`. -/
structure Protocol where
  name : String
  sequences : List Sequence
  sequence : Sequence

/-- A default (empty) sequence, standing for the value Rust would panic on
when an indexing like `sequences[0]` is out of range. -/
def defaultSequence : Sequence := { data := [], threshold := 0, norm := 0 }

/-- A default protocol, used as a `getD` fallback. -/
def defaultProtocol : Protocol :=
  { name := "", sequences := [], sequence := defaultSequence }

/-- `ProtocolDetector::normalized_dot_product` (`detector.rs`): the window
norm is passed in precomputed; in the degenerate case (either norm zero) it
returns `1.0` when the two norms are equal and `0.0` otherwise. -/
noncomputable def ProtocolDetector.normalized_dot_product
    (seq1 : List ℂ) (seq1_norm : ℝ) (seq2 : Sequence) : ℝ :=
  if seq1_norm = 0 ∨ seq2.norm = 0 then
    if seq1_norm = seq2.norm then 1 else 0
  else
    (((List.zipWith (fun a b => a * (starRingEnd ℂ) b) seq1 seq2.data).sum) /
      ((seq1_norm * seq2.norm : ℝ) : ℂ)).re

/-- The free `normalized_dot_product` from `lib.rs`: it recomputes the
first norm and returns `0.0` in every degenerate case (both branches of
its inner `if` are `0.0`). -/
noncomputable def normalized_dot_product (seq1 : List ℂ) (seq2 : Sequence) : ℝ :=
  let norm_seq1 := sqrtNorm seq1
  let norm_seq2 := seq2.norm
  if norm_seq1 = 0 ∨ norm_seq2 = 0 then 0
  else
    (((List.zipWith (fun a b => a * (starRingEnd ℂ) b) seq1 seq2.data).sum) /
      ((norm_seq1 * norm_seq2 : ℝ) : ℂ)).re

/-- Rolling loop of `calculate_norm_vector`: at position `i` the window sum
is decremented by `|input[i-1]|²` and incremented by
`|input[i+window_length-1]|²`, and `sqrt` of the updated sum is pushed.
`n` counts the remaining positions. -/
noncomputable def calculate_norm_vector.go (input : List ℂ) (window_length : ℕ) :
    ℝ → List ℝ → ℕ → ℕ → List ℝ
  | _, acc, _, 0 => acc
  | window_sum, acc, i, n + 1 =>
    let ws := window_sum - Complex.normSq (input.getD (i - 1) 0)
      + Complex.normSq (input.getD (i + window_length - 1) 0)
    calculate_norm_vector.go input window_length ws (acc ++ [Real.sqrt ws]) (i + 1) n

/-- `calculate_norm_vector` (`detector.rs`): sliding-window norms by a
rolling sum of squares; every pushed entry is `sqrt` of the current sum. -/
noncomputable def calculate_norm_vector (input : List ℂ) (window_length : ℕ) : List ℝ :=
  if input.length < window_length then []
  else
    let window_sum := ((input.take window_length).map Complex.normSq).sum
    calculate_norm_vector.go input window_length window_sum
      [Real.sqrt window_sum] 1 (input.length - window_length)

/-- Rolling loop of `ProtocolDetectorFFT::update_norm_vector`: pop the
oldest `|x|²` off the queue (updating the running sum only when the pop
succeeds, as in the source), push the newest, and emit
`sqrt running_sum`. -/
noncomputable def update_norm_vector.go (window : List ℂ) (sequence_length : ℕ) :
    List ℝ → ℝ → List ℝ → ℕ → ℕ → List ℝ × List ℝ × ℝ
  | q, s, acc, _, 0 => (acc, q, s)
  | q, s, acc, i, n + 1 =>
    let new_val := Complex.normSq (window.getD (i + sequence_length - 1) 0)
    let s' := match q with
      | [] => s
      | old_val :: _ => s - old_val + new_val
    update_norm_vector.go window sequence_length (q.tail ++ [new_val]) s'
      (acc ++ [Real.sqrt s']) (i + 1) n

/-- `ProtocolDetectorFFT::update_norm_vector` (`protocol_detector_fft.rs`):
stateful rolling window over `norm_queue` / `running_sum`.  Returns the
emitted `norms` vector together with the updated queue and running sum.
On the very first call (empty queue) the code pushes the raw
`running_sum` — without `sqrt` — as the first entry and starts the loop at
index 1; all loop entries are `running_sum.sqrt()`. -/
noncomputable def update_norm_vector (queue : List ℝ) (running_sum : ℝ)
    (window : List ℂ) (sequence_length : ℕ) : List ℝ × List ℝ × ℝ :=
  if queue.isEmpty then
    let initial := (window.take sequence_length).map Complex.normSq
    update_norm_vector.go window sequence_length initial initial.sum
      [initial.sum] 1 ((window.length - sequence_length) - 1)
  else
    update_norm_vector.go window sequence_length queue running_sum
      [] 0 (window.length - sequence_length)

/-- `ProtocolDetectorFFT::validate_protocols`: rejects an empty list, an
odd first-sequence length in the first protocol, and any later protocol
whose first-sequence length differs from the first protocol's.  It never
inspects `sequences.len()`. -/
def ProtocolDetectorFFT.validate_protocols (protocols : List Protocol) :
    Except String Unit :=
  match protocols with
  | [] => .error "No protocols provided"
  | first :: rest =>
    if (first.sequences.headD defaultSequence).data.length % 2 ≠ 0 then
      .error "Invalid protocol structure"
    else
      let reference_length := (first.sequences.headD defaultSequence).data.length
      if rest.any
          (fun p => (p.sequences.headD defaultSequence).data.length ≠ reference_length) then
        .error "Protocols must have sequences of equal, even length"
      else .ok ()

/-! ## The time-domain `ProtocolDetector` (`detector.rs`) -/

/-- Block state of `ProtocolDetector` (`detector.rs`).  The log file handle
is modelled by the configured path only; whether a write to it fails is an
environment input of each work cycle. -/
structure ProtocolDetector where
  protocols : List Protocol
  sequence_lengths : List ℕ
  total_protocol_length : ℕ
  current_protocol : Option ℕ
  current_index : ℕ
  debug_enabled : Bool
  debug_log_file : Option String

/-- Inner loop of `ProtocolDetector::match_protocol`: walk the protocol's
sequences (paired with the detector's `sequence_lengths`), keeping a running
offset; fail on an out-of-range window or a sub-correlation below the
sequence's threshold, short-circuiting as the source does. -/
noncomputable def match_seqs (input : List ℂ) (input_norms : List ℝ) (start_index : ℕ) :
    List (Sequence × ℕ) → ℕ → Bool
  | [], _ => true
  | (sequence, sequence_length) :: rest, current_offset =>
    if input.length < start_index + current_offset + sequence_length then false
    else if ProtocolDetector.normalized_dot_product
        ((input.drop (start_index + current_offset)).take sequence_length)
        (input_norms.getD (start_index + current_offset) 0) sequence
        < sequence.threshold then false
    else match_seqs input input_norms start_index rest (current_offset + sequence_length)

/-- `ProtocolDetector::match_protocol` (without the returned correlation
vector, which the source only uses for debugging). -/
noncomputable def ProtocolDetector.match_protocol (d : ProtocolDetector) (input : List ℂ)
    (input_norms : List ℝ) (start_index : ℕ) (protocol : Protocol) : Bool :=
  match_seqs input input_norms start_index
    (protocol.sequences.zip d.sequence_lengths) 0

/-- Index of the first list element satisfying `p`, starting the count at
`k`: the `for (idx, x) in xs.iter().enumerate() { ... break }` pattern. -/
def firstIdx {α : Type*} (p : α → Bool) : List α → ℕ → Option ℕ
  | [], _ => none
  | a :: rest, k => if p a then some k else firstIdx p rest (k + 1)

/-- The protocol selected at window position `i`: the first protocol in
declaration order whose `match_protocol` succeeds (the source's inner loop
with `break`). -/
noncomputable def ProtocolDetector.first_match (d : ProtocolDetector) (input : List ℂ)
    (input_norms : List ℝ) (i : ℕ) : Option ℕ :=
  firstIdx (fun pr => d.match_protocol input input_norms i pr) d.protocols 0

/-- The scan loop `for i in 0..max_process` of `ProtocolDetector::work`.
`rem` counts the remaining positions, `i` is the current window start,
`cp` the local `current_protocol`, `sp` the persisted
`self.current_protocol`, `ms` the accumulated `matches` entries
(protocol, window index), `tags` the emitted stream tags
(lane, position, text) and `logs` the match-log records
(absolute index, protocol name).  A failing match-log write is the
source's `self.log_sequence_match(..)?`: it aborts the whole work call,
so it is modelled as an `Except.error`. -/
noncomputable def ProtocolDetector.scan_loop (d : ProtocolDetector) (input : List ℂ)
    (input_norms : List ℝ) (logFails : Bool) :
    ℕ → ℕ → ℕ → Option ℕ → List (ℕ × ℕ) → List (ℕ × ℕ × String) → List (ℕ × String) →
    Except String (ℕ × Option ℕ × List (ℕ × ℕ) × List (ℕ × ℕ × String) × List (ℕ × String))
  | 0, _, cp, sp, ms, tags, logs => .ok (cp, sp, ms, tags, logs)
  | rem + 1, i, cp, sp, ms, tags, logs =>
    match d.first_match input input_norms i with
    | none => d.scan_loop input input_norms logFails rem (i + 1) cp sp ms tags logs
    | some p =>
      let name := (d.protocols.getD p defaultProtocol).name
      let cp' := if p = cp then cp else p
      let sp' := if p = cp then sp else some p
      let ms' := if p = cp then ms else ms ++ [(p, i)]
      let tags' := if p = cp then tags else tags ++ [(p, i, name ++ " Start")]
      if d.debug_enabled ∧ d.debug_log_file.isSome ∧ logFails then
        .error "log write failed"
      else
        d.scan_loop input input_norms logFails rem (i + 1) cp' sp' ms' tags'
          (logs ++ [(d.current_index + i, name)])

/-- `iter().min().unwrap_or(0)` over a list of lengths. -/
def listMinD (l : List ℕ) : ℕ :=
  match l with
  | [] => 0
  | x :: xs => xs.foldl min x

/-- Append samples to output lane `p` (a write into that lane's slice at
its current produce offset). -/
def setAppend (lanes : List (List ℂ)) (p : ℕ) (s : List ℂ) : List (List ℂ) :=
  lanes.set p (lanes.getD p [] ++ s)

/-- The routing loop shared by both detectors: walk the match list
pairwise; each window `(p, i), (q, j)` copies `input[i..j]` to lane `p`.
Guards model the Rust panics: a lane index out of range, a write past the
end of the lane's output slice, or a read past the end of the input. -/
def routeLoop (input : List ℂ) (outCaps : List ℕ) :
    List (ℕ × ℕ) → List ℕ → List (List ℂ) → ℕ →
    Except String (List ℕ × List (List ℂ) × ℕ)
  | (p, i) :: (q, j) :: rest, status, lanes, consumed =>
    if p < status.length then
      if status.getD p 0 + (j - i) ≤ outCaps.getD p 0 ∧ i ≤ j ∧ j ≤ input.length then
        routeLoop input outCaps ((q, j) :: rest)
          (status.set p (status.getD p 0 + (j - i)))
          (setAppend lanes p ((input.drop i).take (j - i)))
          (consumed + (j - i))
      else .error "slice range out of bounds"
    else .error "output port index out of range"
  | _, status, lanes, consumed => .ok (status, lanes, consumed)

/-- `max_process` of the time-domain work cycle:
`min(input.len().saturating_sub(L - 1), min_output_len).saturating_sub(1)`. -/
def ProtocolDetector.max_process (d : ProtocolDetector) (inputLen : ℕ)
    (outCaps : List ℕ) : ℕ :=
  min (inputLen - (d.total_protocol_length - 1)) (listMinD outCaps) - 1

/-- Observable outcome of one `ProtocolDetector::work` cycle. -/
structure TimeWorkResult where
  consumed : ℕ
  produced : List ℕ
  lanes : List (List ℂ)
  tags : List (ℕ × ℕ × String)
  logs : List (ℕ × String)
  ioFinished : Bool
  current_protocol : Option ℕ
  current_index : ℕ

/-- `ProtocolDetector::work`: input view `input` with its `finished` flag,
per-lane output capacities `outCaps`, and the environment flag `logFails`
(whether a match-log write would fail this cycle).  Follows the source:
compute `input_norms` and `max_process`; when `max_process = 0` and the
input is finished, drain one sample to the current lane (or mark the
block finished when the input is empty); scan all window positions,
switching `current_protocol` on the first matching protocol per position;
append the final `(current_protocol, max_process)` entry; route the
matched spans to their lanes; `exit(1)` (an error here) if the routed
total differs from `max_process`. -/
noncomputable def ProtocolDetector.work (d : ProtocolDetector) (input : List ℂ)
    (inputFinished : Bool) (outCaps : List ℕ) (logFails : Bool) :
    Except String TimeWorkResult :=
  let window_length :=
    ((d.protocols.headD defaultProtocol).sequences.headD defaultSequence).data.length
  let input_norms := calculate_norm_vector input window_length
  let max_process := d.max_process input.length outCaps
  let cp0 := d.current_protocol.getD 0
  let n := d.protocols.length
  let drain : Except String (ℕ × ℕ × Bool) :=
    if max_process = 0 ∧ inputFinished then
      if cp0 < n then
        if 0 < input.length then
          if 0 < outCaps.getD cp0 0 then .ok (1, 1, false) else .ok (0, 0, false)
        else .ok (0, 0, true)
      else .error "output port index out of range"
    else .ok (0, 0, false)
  match drain with
  | .error e => .error e
  | .ok (dCons, dProd, ioFin) =>
    match d.scan_loop input input_norms logFails max_process 0 cp0
        d.current_protocol [] [] [] with
    | .error e => .error e
    | .ok (cpF, spF, ms, tags, logs) =>
      let match_list := ((cp0, 0) :: ms) ++ [(cpF, max_process)]
      match routeLoop input outCaps match_list
          (List.replicate n 0) (List.replicate n []) 0 with
      | .error e => .error e
      | .ok (status, lanes, consumedR) =>
        if consumedR ≠ max_process then .error "exit(1)"
        else
          .ok { consumed := dCons + consumedR
                produced :=
                  if dProd = 1 then status.set cp0 (status.getD cp0 0 + 1) else status
                lanes := if dProd = 1 then setAppend lanes cp0 (input.take 1) else lanes
                tags := tags
                logs := logs
                ioFinished := ioFin
                current_protocol := spF
                current_index := d.current_index + max_process }

/-! ## The FFT detector (`protocol_detector_fft.rs`) -/

/-- Unnormalized forward DFT, the semantics of `rustfft`'s
`plan_fft_forward(n).process`. -/
noncomputable def dft (x : List ℂ) : List ℂ :=
  (List.range x.length).map fun k =>
    ∑ j ∈ Finset.range x.length,
      x.getD j 0 * Complex.exp (-2 * Real.pi * Complex.I * j * k / x.length)

/-- Unnormalized inverse DFT, the semantics of `rustfft`'s
`plan_fft_inverse(n).process` (no `1/n` scaling; the source divides by
`n` explicitly). -/
noncomputable def idft (x : List ℂ) : List ℂ :=
  (List.range x.length).map fun k =>
    ∑ j ∈ Finset.range x.length,
      x.getD j 0 * Complex.exp (2 * Real.pi * Complex.I * j * k / x.length)

/-- `Sequence_fft`: a sequence together with the forward DFT of its
zero-padded data (padded to twice its length). -/
structure Sequence_fft where
  sequence : Sequence
  fft : List ℂ

/-- `Sequence_fft::new`. -/
noncomputable def Sequence_fft.new (sequence : Sequence) : Sequence_fft :=
  { sequence := sequence,
    fft := dft (sequence.data ++ List.replicate sequence.data.length 0) }

/-- Block state of `ProtocolDetectorFFT`.  The match-log file handle is
modelled by its presence; the timing log and FFT planner handles carry no
observable state for the claims and are omitted. -/
structure ProtocolDetectorFFT where
  sync_sequence : Sequence_fft
  protocols : List Protocol
  sequence_lengths : List ℕ
  total_protocol_length : ℕ
  current_protocol : Option ℕ
  absolute_index : ℕ
  match_log_file : Bool
  debug_enabled : Bool
  norm_queue : List ℝ
  running_sum : ℝ

/-- `ProtocolDetectorFFT::fft_corr_normalized`: forward-DFT the window,
multiply pointwise by the conjugated sync DFT, inverse-DFT; normalize bin
`i` by `norm_vector[i] * sync.norm * n` (or `0` when the window norm is
zero) and return the first bin among the first `L_sync` whose normalized
real part reaches the sync threshold. -/
noncomputable def ProtocolDetectorFFT.fft_corr_normalized (sync : Sequence_fft)
    (window : List ℂ) (norm_vector : List ℝ) : Option ℕ :=
  let n := window.length
  let prod := List.zipWith (fun w s => w * (starRingEnd ℂ) s) (dft window) sync.fft
  let x := idft prod
  firstIdx (fun i =>
    decide (sync.sequence.threshold ≤
      (if norm_vector.getD i 0 = 0 then 0
        else (x.getD i 0).re / (norm_vector.getD i 0 * sync.sequence.norm * n))))
    (List.range sync.sequence.data.length) 0

/-- `ProtocolDetectorFFT::match_protocols`: panics (modelled as an error)
when the discriminator window would overrun the input; otherwise returns
the first protocol in declaration order whose single discriminator
correlates above its threshold. -/
noncomputable def ProtocolDetectorFFT.match_protocols (input : List ℂ) (start_index : ℕ)
    (protocols : List Protocol) : Except String (Option ℕ) :=
  let sequence_length :=
    ((protocols.headD defaultProtocol).sequences.headD defaultSequence).data.length
  if input.length < start_index + sequence_length then
    .error "Start index plus sequence length exceeds the length of the input"
  else
    .ok (firstIdx (fun protocol =>
      decide ((protocol.sequences.headD defaultSequence).threshold ≤
        normalized_dot_product ((input.drop start_index).take sequence_length)
          (protocol.sequences.headD defaultSequence))) protocols 0)

/-- The `while i < max_process` loop of `ProtocolDetectorFFT::work`:
slide the FFT window by `step_size`, maintain the rolling norm state, and
on a sync hit followed by a discriminator match record
`(i + hit, protocol)` and switch the current protocol.  A failing
match-log write (`self.log_match(..)?`) aborts the call.  The guards
model the source's slice panics.  (When `step_size = 0` the Rust loop
would never terminate; the model exits instead — all claims assume a
positive sync length.) -/
noncomputable def ProtocolDetectorFFT.fftLoop (sync : Sequence_fft)
    (protocols : List Protocol) (seqLen0 : ℕ) (hasLogFile logFails : Bool)
    (input : List ℂ) (maxP window_length step_size : ℕ)
    (i cp : ℕ) (queue : List ℝ) (rsum : ℝ) (hits : List (ℕ × ℕ)) :
    Except String (ℕ × ℕ × List ℝ × ℝ × List (ℕ × ℕ)) :=
  if h : i < maxP ∧ 0 < step_size then
    if input.length < i + window_length then .error "window slice out of range"
    else
      let window := (input.drop i).take window_length
      let unv := update_norm_vector queue rsum window sync.sequence.data.length
      match ProtocolDetectorFFT.fft_corr_normalized sync window unv.1 with
      | none =>
        ProtocolDetectorFFT.fftLoop sync protocols seqLen0 hasLogFile logFails input
          maxP window_length step_size (i + step_size) cp unv.2.1 unv.2.2 hits
      | some hit =>
        if input.length < i + hit + seqLen0 then .error "input slice out of range"
        else
          match ProtocolDetectorFFT.match_protocols (input.drop (i + hit + seqLen0))
              0 protocols with
          | .error e => .error e
          | .ok none =>
            ProtocolDetectorFFT.fftLoop sync protocols seqLen0 hasLogFile logFails input
              maxP window_length step_size (i + step_size) cp unv.2.1 unv.2.2 hits
          | .ok (some detected) =>
            if hasLogFile ∧ logFails then .error "log write failed"
            else
              ProtocolDetectorFFT.fftLoop sync protocols seqLen0 hasLogFile logFails input
                maxP window_length step_size (i + step_size) detected unv.2.1 unv.2.2
                (hits ++ [(i + hit, detected)])
  else .ok (i, cp, queue, rsum, hits)
termination_by maxP - i
decreasing_by all_goals omega

/-- Observable outcome of one `ProtocolDetectorFFT::work` cycle. -/
structure FftWorkResult where
  consumed : ℕ
  produced : List ℕ
  lanes : List (List ℂ)
  ioFinished : Bool
  current_protocol : Option ℕ
  absolute_index : ℕ
  norm_queue : List ℝ
  running_sum : ℝ

/-- Tail of `ProtocolDetectorFFT::work` after routing: on a finished
input, mark the block finished when the (post-consume) input is empty,
otherwise move one extra sample to the current protocol's lane if it
still has space. -/
noncomputable def ProtocolDetectorFFT.finishStep (d : ProtocolDetectorFFT)
    (input : List ℂ) (inputFinished : Bool) (outCaps : List ℕ)
    (cpF : ℕ) (queueF : List ℝ) (rsumF : ℝ)
    (status : List ℕ) (lanes : List (List ℂ)) (consumed : ℕ) :
    Except String FftWorkResult :=
  if inputFinished then
    if (input.drop consumed).length = 0 then
      .ok { consumed := consumed, produced := status, lanes := lanes, ioFinished := true,
            current_protocol := some cpF, absolute_index := d.absolute_index + consumed,
            norm_queue := queueF, running_sum := rsumF }
    else
      if cpF < d.protocols.length then
        if 1 ≤ outCaps.getD cpF 0 - status.getD cpF 0 then
          .ok { consumed := consumed + 1,
                produced := status.set cpF (status.getD cpF 0 + 1),
                lanes := setAppend lanes cpF ((input.drop consumed).take 1),
                ioFinished := false, current_protocol := some cpF,
                absolute_index := d.absolute_index + consumed,
                norm_queue := queueF, running_sum := rsumF }
        else
          .ok { consumed := consumed, produced := status, lanes := lanes,
                ioFinished := false, current_protocol := some cpF,
                absolute_index := d.absolute_index + consumed,
                norm_queue := queueF, running_sum := rsumF }
      else .error "output port index out of range"
  else
    .ok { consumed := consumed, produced := status, lanes := lanes, ioFinished := false,
          current_protocol := some cpF, absolute_index := d.absolute_index + consumed,
          norm_queue := queueF, running_sum := rsumF }

/-- `ProtocolDetectorFFT::work`.  `max_process` follows the source:
`min(input.len().saturating_sub(ceil(1.5·W) - 1), min_out.saturating_sub(W - 1))
.saturating_sub(1)` with `W = 2·L_sync`, so `ceil(1.5·W) = 3·L_sync`
exactly.  The windowed loop records `(hit index, protocol)` pairs; the
routing (identical to the time-domain detector) runs only when the final
loop index is positive, after the list is bracketed with `(0, previous
protocol)` and `(final index, final protocol)`. -/
noncomputable def ProtocolDetectorFFT.work (d : ProtocolDetectorFFT) (input : List ℂ)
    (inputFinished : Bool) (outCaps : List ℕ) (logFails : Bool) :
    Except String FftWorkResult :=
  let min_output_len := listMinD outCaps
  let window_length := 2 * d.sequence_lengths.getD 0 0
  let max_process := min (input.length - (3 * d.sequence_lengths.getD 0 0 - 1))
      (min_output_len - (window_length - 1)) - 1
  let step_size := window_length / 2
  match ProtocolDetectorFFT.fftLoop d.sync_sequence d.protocols
      (d.sequence_lengths.getD 0 0) d.match_log_file logFails input
      max_process window_length step_size
      0 (d.current_protocol.getD 0) d.norm_queue d.running_sum [] with
  | .error e => .error e
  | .ok (iF, cpF, queueF, rsumF, hits) =>
    if 0 < iF then
      match routeLoop input outCaps
          ((((0, d.current_protocol.getD 0) :: hits) ++ [(iF, cpF)]).map
            (fun x => (x.2, x.1)))
          (List.replicate d.protocols.length 0) (List.replicate d.protocols.length [])
          0 with
      | .error e => .error e
      | .ok (status, lanes, consumed) =>
        d.finishStep input inputFinished outCaps cpF queueF rsumF status lanes consumed
    else
      d.finishStep input inputFinished outCaps cpF queueF rsumF
        (List.replicate d.protocols.length 0) (List.replicate d.protocols.length []) 0

/-! ## Concrete fixtures used by witnesses and counterexamples -/

/-- Length-1 all-ones sequence with threshold `1/2`. -/
noncomputable def seqOne : Sequence := Sequence.new [1] (1 / 2)

/-- Protocol "A" over `seqOne`. -/
noncomputable def protoA : Protocol := { name := "A", sequences := [seqOne], sequence := seqOne }

/-- Protocol "B" over `seqOne` (identical discriminator to `protoA`). -/
noncomputable def protoB : Protocol := { name := "B", sequences := [seqOne], sequence := seqOne }

/-- A two-protocol time-domain detector state (as built by
`ProtocolDetector::new` for protocols `A`, `B` with no sync sequence and
debugging off). -/
noncomputable def dTime : ProtocolDetector :=
  { protocols := [protoA, protoB], sequence_lengths := [1], total_protocol_length := 1,
    current_protocol := some 0, current_index := 0,
    debug_enabled := false, debug_log_file := none }

/-- The same detector with debug logging to a file enabled. -/
noncomputable def dTimeLog : ProtocolDetector :=
  { protocols := [protoA, protoB], sequence_lengths := [1], total_protocol_length := 1,
    current_protocol := some 0, current_index := 0,
    debug_enabled := true, debug_log_file := some "matches.log" }

/-- Sync sequence `[1]` with threshold `1/2`, with its precomputed padded
DFT. -/
noncomputable def syncFFT1 : Sequence_fft := Sequence_fft.new (Sequence.new [1] (1 / 2))

/-- A one-protocol FFT detector state with a match-log file present. -/
noncomputable def dFFT : ProtocolDetectorFFT :=
  { sync_sequence := syncFFT1, protocols := [protoA], sequence_lengths := [1],
    total_protocol_length := 1, current_protocol := some 0, absolute_index := 0,
    match_log_file := true, debug_enabled := false, norm_queue := [], running_sum := 0 }

/-- A protocol whose single discriminator has odd length 1. -/
noncomputable def protoOddLen : Protocol :=
  { name := "b", sequences := [Sequence.new [1] 1], sequence := Sequence.new [1] 1 }

/-! ## MultiPortInserter (multi_port_inserter.rs) -/

/-- A stream tag attached to an input item (`futuresdr::runtime::Tag`,
restricted to the variants the inserter inspects). -/
inductive RTag where
  | namedUsize (n : String) (len : ℕ)
  | other

/-- An `ItemTag`: a tag together with the index of the item it is attached
to. -/
structure ItemTag where
  index : ℕ
  tag : RTag

/-- One input port's buffer view during a work call: the readable samples,
the upstream-finished flag and the pending tags. -/
structure PortInput where
  data : List ℂ
  finished : Bool
  tags : List ItemTag

/-- The view of a stream input that was never built (`sio.input(i)` on a
missing port); unreachable while `port_order` indexes actual ports. -/
def defaultPortInput : PortInput := { data := [], finished := true, tags := [] }

/-- The `MultiPortInserter` block state (multi_port_inserter.rs lines
17-29).  `sequences` holds the already padded sequences. -/
structure MultiPortInserter where
  ports : List (String × String)
  sequences : List (List ℂ)
  current_port : Option ℕ
  current_sequence : Option ℕ
  inserting_sequence : Bool
  sequence_index : ℕ
  packet_length : ℕ
  consumed_input : ℕ
  insertion_index : ℕ
  samples_after_sequence : ℕ
  port_order : List ℕ

/-- `MultiPortInserter::new`: pads each sequence with `pad_front` zeros in
front and `pad_back` zeros behind, starts with no active port and
`port_order = [0, 1, …]`.  (The constructor asserts
`ports.len() == sequences.len()`; every state built here satisfies it.) -/
noncomputable def MultiPortInserter.new (ports : List (String × String))
    (sequences : List (List ℂ)) (pad_front pad_back : ℕ) : MultiPortInserter :=
  { ports := ports,
    sequences := sequences.map fun seq =>
      List.replicate pad_front 0 ++ seq ++ List.replicate pad_back 0,
    current_port := none, current_sequence := none, inserting_sequence := false,
    sequence_index := 0, packet_length := 0, consumed_input := 0,
    insertion_index := 0, samples_after_sequence := 0,
    port_order := List.range ports.length }

/-- The tag search `tags.iter().find_map(..)`: the first `NamedUsize` tag
whose name equals `search_string`, returned as `(index, len)`. -/
def findTag (search_string : String) : List ItemTag → Option (ℕ × ℕ)
  | [] => none
  | t :: rest =>
    match t.tag with
    | RTag.namedUsize n len =>
      if n = search_string then some (t.index, len) else findTag search_string rest
    | RTag.other => findTag search_string rest

/-- The tag-search loop `for &port_index in &self.port_order`: the first
port in `port_order` order whose input carries a matching `NamedUsize`
tag, with the tag's index and length.  (`self.ports[port_index]` cannot
fault while `port_order` is a permutation of `0..ports.len()`, which
`new` establishes and the rotation preserves.) -/
def scanPorts (ports : List (String × String)) (inputs : List PortInput) :
    List ℕ → Option (ℕ × ℕ × ℕ)
  | [] => none
  | pidx :: rest =>
    match findTag (ports.getD pidx ("", "")).2
        (inputs.getD pidx defaultPortInput).tags with
    | some (index, len) => some (pidx, index, len)
    | none => scanPorts ports inputs rest

/-- Result of one `MultiPortInserter::work` call: the updated state, the
active port with the number of samples consumed from it (if any), the
samples written to the single output, and the `io.finished` flag. -/
structure MpiWorkResult where
  state : MultiPortInserter
  consumed : Option (ℕ × ℕ)
  out : List ℂ
  ioFinished : Bool

/-- `MultiPortInserter::work` (multi_port_inserter.rs lines 88-266) for one
call: `inputs` are the per-port buffer views and `outCap` is the writable
length of the single output buffer.  The three output writes are clamped
by `min` against the remaining output capacity in the source exactly as
here, and the pre-insertion and sequence reads are clamped against their
own slices; the one read that is not — the post-sequence copy
`input[input_consumed..input_consumed + data_to_copy]`, whose
`data_to_copy` is clamped by `input.len()` only — is modelled by a bounds
check returning `Except.error` where Rust would panic.  The
`current_sequence.unwrap()` cannot fault because `inserting_sequence`
implies `current_sequence.isSome` in every reachable state; subtractions
that cannot underflow in reachable states use truncated `∸`. -/
noncomputable def MultiPortInserter.work (m : MultiPortInserter)
    (inputs : List PortInput) (outCap : ℕ) : Except String MpiWorkResult :=
  if ((List.range m.ports.length).all fun i =>
      (inputs.getD i defaultPortInput).data.isEmpty &&
      (inputs.getD i defaultPortInput).finished) then
    .ok { state := m, consumed := none, out := [], ioFinished := true }
  else
    let m₁ :=
      if m.current_port.isNone then
        match scanPorts m.ports inputs m.port_order with
        | some (pidx, index, len) =>
          { m with
            current_port := some pidx, current_sequence := some pidx,
            inserting_sequence := true, sequence_index := 0,
            packet_length := len, consumed_input := 0, insertion_index := index,
            samples_after_sequence := 0,
            port_order := m.port_order.filter (fun p => p != pidx) ++ [pidx] }
        | none => m
      else m
    match m₁.current_port with
    | none =>
      .ok { state := m₁, consumed := none, out := [], ioFinished := false }
    | some pidx =>
      let input := (inputs.getD pidx defaultPortInput).data
      let pre :=
        if m₁.consumed_input < m₁.insertion_index then
          min (m₁.insertion_index - m₁.consumed_input) (min input.length outCap)
        else 0
      let out₁ := input.take pre
      let m₂ := { m₁ with consumed_input := m₁.consumed_input + pre }
      let step2 : List ℂ × MultiPortInserter :=
        if m₂.inserting_sequence then
          let sequence := m₂.sequences.getD (m₂.current_sequence.getD 0) []
          let to_insert := sequence.length - m₂.sequence_index
          let data_inserted := min to_insert (outCap - pre)
          let si := m₂.sequence_index + data_inserted
          ((sequence.drop m₂.sequence_index).take data_inserted,
            if si < sequence.length then
              { m₂ with sequence_index := si, inserting_sequence := true }
            else
              { m₂ with sequence_index := 0, inserting_sequence := false })
        else ([], m₂)
      let out₂ := step2.1
      let m₃ := step2.2
      if m₃.inserting_sequence then
        .ok { state := m₃, consumed := some (pidx, pre), out := out₁ ++ out₂,
              ioFinished := false }
      else
        let remaining_to_copy := m₃.packet_length - m₃.samples_after_sequence
        let data_to_copy :=
          min input.length (min remaining_to_copy (outCap - (pre + out₂.length)))
        if pre + data_to_copy ≤ input.length then
          let out₃ := (input.drop pre).take data_to_copy
          let sas := m₃.samples_after_sequence + data_to_copy
          let m₄ :=
            if m₃.packet_length ≤ sas then
              { m₃ with
                current_port := none, current_sequence := none,
                inserting_sequence := false, sequence_index := 0,
                packet_length := 0, consumed_input := 0, insertion_index := 0,
                samples_after_sequence := 0 }
            else { m₃ with samples_after_sequence := sas }
          .ok { state := m₄, consumed := some (pidx, pre + data_to_copy),
                out := out₁ ++ out₂ ++ out₃, ioFinished := false }
        else .error "slice index out of range"

/-- The §8 scenario-1 port table: one port whose burst tag is named
`"burst"`. -/
def portsS8 : List (String × String) := [("in", "burst")]

/-- The §8 scenario-1 sequence table: 63 unit samples. -/
noncomputable def seqsS8 : List (List ℂ) := [List.replicate 63 1]

/-- The §8 scenario-1 input: 101 samples of `-1 - i` with a burst tag of
packet length 100 at index 1. -/
noncomputable def burstInput : PortInput :=
  { data := List.replicate 101 ⟨-1, -1⟩, finished := false,
    tags := [{ index := 1, tag := RTag.namedUsize "burst" 100 }] }

/-- The §8 scenario-1 input table. -/
noncomputable def inputsS8 : List PortInput := [burstInput]

/-! ## Claim C2: degenerate cases of the normalized correlation -/

/-- C2 counterexample: when both norms are zero, the time-domain detector's
`normalized_dot_product` returns `1`, not `0` as the claim states.  The
all-zero window has norm `sqrt 0 = 0`, equal to the norm of the all-zero
sequence, so the degenerate branch returns `1`. -/
theorem c2_counterexample :
    ProtocolDetector.normalized_dot_product [0] 0 (Sequence.new [0] 1) = 1 ∧
    (1 : ℝ) ≠ 0 := by
  constructor
  · have h : (Sequence.new [0] 1).norm = 0 := by
      simp [Sequence.new, sqrtNorm]
    simp [ProtocolDetector.normalized_dot_product, h]
  · norm_num

/-- C2 (amended): if exactly one of the two norms is zero, the detector's
`normalized_dot_product` returns `0`; the free `normalized_dot_product`
of `lib.rs` returns `0` in every degenerate case, including both norms
zero.  (The original claim fails only when both norms are zero in the
detector's version, which returns `1` there.) -/
theorem c2_exactly_one_zero_norm (seq1 : List ℂ) (n1 : ℝ) (s : Sequence)
    (hdeg : n1 = 0 ∨ s.norm = 0) (hne : ¬(n1 = 0 ∧ s.norm = 0)) :
    ProtocolDetector.normalized_dot_product seq1 n1 s = 0 ∧
    ∀ t : List ℂ, ∀ s' : Sequence, (sqrtNorm t = 0 ∨ s'.norm = 0) →
      normalized_dot_product t s' = 0 := by
  constructor
  · have hns : n1 ≠ s.norm := by
      rcases hdeg with h | h
      · intro he
        exact hne ⟨h, he ▸ h⟩
      · intro he
        exact hne ⟨he.trans h, h⟩
    unfold ProtocolDetector.normalized_dot_product
    rw [if_pos hdeg, if_neg hns]
  · intro t s' h
    rcases h with h | h <;> simp [normalized_dot_product, h]

/-- Closed witness for `c2_exactly_one_zero_norm` at a window of norm `0`
against a sequence of norm `1`. -/
theorem c2_exactly_one_zero_norm_witness :
    (((0 : ℝ) = 0 ∨ (Sequence.new [1] 1).norm = 0) ∧
      ¬((0 : ℝ) = 0 ∧ (Sequence.new [1] 1).norm = 0)) ∧
    ProtocolDetector.normalized_dot_product [1] 0 (Sequence.new [1] 1) = 0 := by
  have hnorm : (Sequence.new [1] 1).norm = 1 := by
    simp [Sequence.new, sqrtNorm]
  have hne : ¬((0 : ℝ) = 0 ∧ (Sequence.new [1] 1).norm = 0) := by
    rw [hnorm]; norm_num
  exact ⟨⟨Or.inl rfl, hne⟩,
    (c2_exactly_one_zero_norm [1] 0 (Sequence.new [1] 1) (Or.inl rfl) hne).1⟩

/-! ## Claim C3: the FFT detector's rolling norm vector -/

/-- C3: on the first call (queue just initialized) the FFT detector's
`update_norm_vector` emits the raw squared sum as its first entry, while
`calculate_norm_vector` emits its square root: on the input
`[2, 0, 0, 0]` with window length 2 the rolling path yields `4` where the
recomputed path yields `2`.  This contradicts the claim (and matches the
commented-out `.map(|&sum| sum.sqrt())` left in the source), so the first
entry is a code bug, not the sqrt'd form the spec requires. -/
theorem c3_first_rolling_entry_not_sqrt :
    (update_norm_vector [] 0 [(2 : ℂ), 0, 0, 0] 2).1.headD 0 = 4 ∧
    (calculate_norm_vector [(2 : ℂ), 0, 0, 0] 2).headD 0 = 2 ∧
    (4 : ℝ) ≠ 2 := by
  have h2 : Complex.normSq (2 : ℂ) = 4 := by
    simp [Complex.normSq_apply]
    norm_num
  have hsqrt4 : Real.sqrt 4 = 2 := by
    rw [show (4 : ℝ) = 2 ^ 2 by norm_num, Real.sqrt_sq (by norm_num : (0 : ℝ) ≤ 2)]
  refine ⟨?_, ?_, by norm_num⟩
  · simp [update_norm_vector, update_norm_vector.go, h2]
  · simp [calculate_norm_vector, calculate_norm_vector.go, h2, hsqrt4]

/-! ## Claim C8: construction-time validation of the FFT detector -/

/-- C8 counterexample: a protocol declaring two discriminator sequences
(of even, equal length) passes `validate_protocols`, so construction does
not fail on multiple discriminators. -/
theorem c8_counterexample :
    ProtocolDetectorFFT.validate_protocols
      [{ name := "a",
         sequences := [Sequence.new [1, 1] 1, Sequence.new [1, 1] 1],
         sequence := Sequence.new [1, 1] 1 }] = Except.ok () ∧
    [Sequence.new [1, 1] 1, Sequence.new [1, 1] 1].length ≠ 1 := by
  constructor
  · rfl
  · norm_num

/-- C8 (amended): `ProtocolDetectorFFT::validate_protocols` fails whenever
any protocol's first discriminator sequence has odd length (the first
protocol's is checked for evenness and every other protocol's length must
equal it); a protocol declaring more than one discriminator is not
rejected. -/
theorem c8_odd_length_rejected (protocols : List Protocol)
    (h : ∃ p ∈ protocols, (p.sequences.headD defaultSequence).data.length % 2 = 1) :
    ∃ e, ProtocolDetectorFFT.validate_protocols protocols = Except.error e := by
  rcases h with ⟨p, hp, hodd⟩
  cases protocols with
  | nil => cases hp
  | cons first rest =>
    by_cases hf : (first.sequences.headD defaultSequence).data.length % 2 = 0
    · rcases List.mem_cons.mp hp with rfl | hrest
      · omega
      · refine ⟨"Protocols must have sequences of equal, even length", ?_⟩
        simp only [ProtocolDetectorFFT.validate_protocols]
        rw [if_neg (by omega), if_pos]
        rw [List.any_eq_true]
        exact ⟨p, hrest, by simp only [decide_eq_true_eq]; omega⟩
    · refine ⟨"Invalid protocol structure", ?_⟩
      simp only [ProtocolDetectorFFT.validate_protocols]
      rw [if_pos (by omega)]

/-- Closed witness for `c8_odd_length_rejected`: a single protocol with a
length-1 discriminator is rejected. -/
theorem c8_odd_length_rejected_witness :
    (∃ p ∈ [protoOddLen],
        (p.sequences.headD defaultSequence).data.length % 2 = 1) ∧
    ∃ e, ProtocolDetectorFFT.validate_protocols [protoOddLen] = Except.error e := by
  have h : ∃ p ∈ [protoOddLen],
      (p.sequences.headD defaultSequence).data.length % 2 = 1 := by
    refine ⟨_, List.mem_singleton_self _, ?_⟩
    simp [protoOddLen, Sequence.new]
  exact ⟨h, c8_odd_length_rejected _ h⟩

/-! ## List helper lemmas -/

theorem getD_set_self (l : List ℕ) (p v : ℕ) (hp : p < l.length) :
    (l.set p v).getD p 0 = v := by
  simp only [List.getD_eq_getElem?_getD]
  rw [List.getElem?_set_self]
  · rfl
  · exact hp

theorem getD_set_ne (l : List ℕ) (p q v : ℕ) (hne : p ≠ q) :
    (l.set p v).getD q 0 = l.getD q 0 := by
  simp only [List.getD_eq_getElem?_getD]
  rw [List.getElem?_set_ne hne]

theorem getD_replicate_of_lt (n i v : ℕ) (h : i < n) :
    (List.replicate n v).getD i 0 = v := by
  rw [List.getD_eq_getElem?_getD, List.getElem?_replicate]
  simp [h]

theorem sum_set_add : ∀ (l : List ℕ) (p m : ℕ), p < l.length →
    (l.set p (l.getD p 0 + m)).sum = l.sum + m
  | [], p, m, hp => by simp at hp
  | a :: t, 0, m, _ => by
    simp [List.getD_cons_zero]
    omega
  | a :: t, p + 1, m, hp => by
    have ih := sum_set_add t p m (by simpa using hp)
    simp only [List.set, List.getD_cons_succ, List.sum_cons, ih]
    omega

theorem getLastD_cons_eq (a : ℕ × ℕ) (l : List (ℕ × ℕ)) (d : ℕ × ℕ) :
    (a :: l).getLastD d = l.getLastD a := by
  cases l <;> simp [List.getLastD]

theorem getLastD_concat_eq (l : List (ℕ × ℕ)) (a d : ℕ × ℕ) :
    (l ++ [a]).getLastD d = a := by
  simp [List.getLastD_concat]

theorem chain_le_getLastD : ∀ (l : List (ℕ × ℕ)) (a : ℕ × ℕ),
    List.Chain' (fun x y => x.2 ≤ y.2) (a :: l) → a.2 ≤ (l.getLastD a).2
  | [], a, _ => le_refl _
  | b :: t, a, h => by
    have hab : a.2 ≤ b.2 := (List.chain'_cons.mp h).1
    have ih := chain_le_getLastD t b (List.chain'_cons.mp h).2
    rw [getLastD_cons_eq]
    exact hab.trans ih

theorem setAppend_length (lanes : List (List ℂ)) (p : ℕ) (s : List ℂ) :
    (setAppend lanes p s).length = lanes.length := by
  simp [setAppend]

theorem setAppend_getD_self (lanes : List (List ℂ)) (p : ℕ) (s : List ℂ)
    (hp : p < lanes.length) :
    (setAppend lanes p s).getD p [] = lanes.getD p [] ++ s := by
  unfold setAppend
  simp only [List.getD_eq_getElem?_getD]
  rw [List.getElem?_set_self]
  · rfl
  · exact hp

theorem setAppend_getD_ne (lanes : List (List ℂ)) (p q : ℕ) (s : List ℂ)
    (hne : p ≠ q) :
    (setAppend lanes p s).getD q [] = lanes.getD q [] := by
  unfold setAppend
  simp only [List.getD_eq_getElem?_getD]
  rw [List.getElem?_set_ne hne]

theorem setAppend_flatten_perm : ∀ (lanes : List (List ℂ)) (p : ℕ) (s : List ℂ),
    p < lanes.length →
    (setAppend lanes p s).flatten.Perm (lanes.flatten ++ s)
  | [], p, s, hp => by simp at hp
  | a :: t, 0, s, _ => by
    simp only [setAppend, List.set, List.getD_cons_zero, List.flatten_cons]
    rw [List.append_assoc, List.append_assoc]
    exact List.Perm.append_left a (@List.perm_append_comm _ s t.flatten)
  | a :: t, p + 1, s, hp => by
    have ih := setAppend_flatten_perm t p s (by simpa using hp)
    simp only [setAppend, List.set, List.getD_cons_succ, List.flatten_cons]
    rw [List.append_assoc]
    exact List.Perm.append_left a ih

theorem foldl_min_le_init : ∀ (xs : List ℕ) (a : ℕ), xs.foldl min a ≤ a
  | [], a => le_refl a
  | x :: t, a => le_trans (foldl_min_le_init t (min a x)) (min_le_left a x)

theorem foldl_min_le_mem : ∀ (xs : List ℕ) (a x : ℕ), x ∈ xs → xs.foldl min a ≤ x
  | [], _, x, hx => by simp at hx
  | y :: t, a, x, hx => by
    rcases List.mem_cons.mp hx with rfl | hx
    · exact le_trans (foldl_min_le_init t (min a x)) (min_le_right a x)
    · exact foldl_min_le_mem t (min a y) x hx

theorem listMinD_le (l : List ℕ) (r : ℕ) (hr : r < l.length) :
    listMinD l ≤ l.getD r 0 := by
  match l, r with
  | x :: xs, 0 => exact foldl_min_le_init xs x
  | x :: xs, r + 1 =>
    have hmem : xs.getD r 0 ∈ xs := by
      have hr' : r < xs.length := by simpa using hr
      rw [List.getD_eq_getElem?_getD, List.getElem?_eq_getElem hr']
      simp
    exact foldl_min_le_mem xs x _ hmem

/-! ## `firstIdx` lemmas -/

theorem firstIdx_some_lt {α : Type*} (p : α → Bool) : ∀ (l : List α) (k j : ℕ),
    firstIdx p l k = some j → k ≤ j ∧ j < k + l.length
  | [], k, j, h => by simp [firstIdx] at h
  | a :: t, k, j, h => by
    simp only [firstIdx] at h
    by_cases hp : p a = true
    · rw [if_pos hp] at h
      simp only [Option.some.injEq] at h
      subst h
      simp only [List.length_cons]
      omega
    · rw [if_neg hp] at h
      have := firstIdx_some_lt p t (k + 1) j h
      simp only [List.length_cons]
      omega

theorem firstIdx_spec {α : Type*} (dflt : α) (p : α → Bool) : ∀ (l : List α) (k j : ℕ),
    firstIdx p l k = some j →
    p (l.getD (j - k) dflt) = true ∧ ∀ m < j - k, p (l.getD m dflt) = false
  | [], k, j, h => by simp [firstIdx] at h
  | a :: t, k, j, h => by
    simp only [firstIdx] at h
    by_cases hp : p a = true
    · rw [if_pos hp] at h
      simp only [Option.some.injEq] at h
      subst h
      simp [List.getD_cons_zero, hp]
    · rw [if_neg hp] at h
      have hk := firstIdx_some_lt p t (k + 1) j h
      have ih := firstIdx_spec dflt p t (k + 1) j h
      have hjk : j - k = (j - (k + 1)) + 1 := by omega
      refine ⟨by rw [hjk, List.getD_cons_succ]; exact ih.1, ?_⟩
      intro m hm
      match m with
      | 0 => simpa [List.getD_cons_zero] using hp
      | m + 1 =>
        rw [List.getD_cons_succ]
        exact ih.2 m (by omega)

theorem firstIdx_some_of_exists {α : Type*} (dflt : α) (p : α → Bool) :
    ∀ (l : List α) (k a : ℕ), a < l.length → p (l.getD a dflt) = true →
    ∃ j, firstIdx p l k = some j ∧ j ≤ k + a
  | [], k, a, ha, _ => by simp at ha
  | x :: t, k, a, ha, hpa => by
    by_cases hp : p x = true
    · exact ⟨k, by simp [firstIdx, hp], by omega⟩
    · match a with
      | 0 =>
        rw [List.getD_cons_zero] at hpa
        exact absurd hpa hp
      | a + 1 =>
        rw [List.getD_cons_succ] at hpa
        obtain ⟨j, hj, hja⟩ :=
          firstIdx_some_of_exists dflt p t (k + 1) a (by simpa using ha) hpa
        exact ⟨j, by simp [firstIdx, hp, hj], by omega⟩

/-! ## Routing lemmas -/

/-- Specification of `routeLoop` on a `≤`-chained match list: it succeeds
(no panic), consumes exactly `last − first` window indices, adds that
amount to the produced totals (at most that much per lane), and writes a
permutation of the input span `[first, last)` across the lanes. -/
theorem routeLoop_ok (input : List ℂ) (outCaps : List ℕ) :
    ∀ (tl : List (ℕ × ℕ)) (p i : ℕ) (status : List ℕ) (lanes : List (List ℂ)) (c : ℕ),
    List.Chain' (fun x y => x.2 ≤ y.2) ((p, i) :: tl) →
    (∀ x ∈ (p, i) :: tl, x.1 < status.length) →
    lanes.length = status.length →
    (∀ r < status.length,
      status.getD r 0 + ((tl.getLastD (p, i)).2 - i) ≤ outCaps.getD r 0) →
    (tl.getLastD (p, i)).2 ≤ input.length →
    ∃ st ln, routeLoop input outCaps ((p, i) :: tl) status lanes c =
        .ok (st, ln, c + ((tl.getLastD (p, i)).2 - i)) ∧
      st.length = status.length ∧ ln.length = lanes.length ∧
      st.sum = status.sum + ((tl.getLastD (p, i)).2 - i) ∧
      (∀ r < status.length,
        st.getD r 0 ≤ status.getD r 0 + ((tl.getLastD (p, i)).2 - i)) ∧
      ln.flatten.Perm
        (lanes.flatten ++ (input.drop i).take ((tl.getLastD (p, i)).2 - i))
  | [], p, i, status, lanes, c, _, _, hl, _, _ => by
    refine ⟨status, lanes, ?_, rfl, rfl, ?_, ?_, ?_⟩
    · show routeLoop input outCaps [(p, i)] status lanes c = _
      simp [routeLoop, List.getLastD]
    · simp [List.getLastD]
    · intro r _
      simp [List.getLastD]
    · simp [List.getLastD]
  | (q, j) :: rest, p, i, status, lanes, c, hch, hmem, hl, hcap, hin => by
    have hij : i ≤ j := (List.chain'_cons.mp hch).1
    have hchTail : List.Chain' (fun x y => x.2 ≤ y.2) ((q, j) :: rest) :=
      (List.chain'_cons.mp hch).2
    rw [getLastD_cons_eq] at hcap hin ⊢
    have hjL : j ≤ (rest.getLastD (q, j)).2 := chain_le_getLastD rest (q, j) hchTail
    have hp : p < status.length := hmem (p, i) (List.mem_cons_self _ _)
    have hguard : status.getD p 0 + (j - i) ≤ outCaps.getD p 0 ∧ i ≤ j ∧ j ≤ input.length := by
      refine ⟨?_, hij, ?_⟩
      · have := hcap p hp
        omega
      · omega
    have hstep : routeLoop input outCaps ((p, i) :: (q, j) :: rest) status lanes c =
        routeLoop input outCaps ((q, j) :: rest)
          (status.set p (status.getD p 0 + (j - i)))
          (setAppend lanes p ((input.drop i).take (j - i)))
          (c + (j - i)) := by
      simp only [routeLoop]
      rw [if_pos hp, if_pos hguard]
    have hlen' : (status.set p (status.getD p 0 + (j - i))).length = status.length := by
      simp
    have hcapTail : ∀ r < (status.set p (status.getD p 0 + (j - i))).length,
        (status.set p (status.getD p 0 + (j - i))).getD r 0 +
          ((rest.getLastD (q, j)).2 - j) ≤ outCaps.getD r 0 := by
      intro r hr
      rw [hlen'] at hr
      by_cases hrp : p = r
      · subst hrp
        rw [getD_set_self status p _ hp]
        have := hcap p hp
        omega
      · rw [getD_set_ne status p r _ hrp]
        have := hcap r hr
        omega
    obtain ⟨st, ln, hrun, hstl, hlnl, hsum, hle, hperm⟩ :=
      routeLoop_ok input outCaps rest q j
        (status.set p (status.getD p 0 + (j - i)))
        (setAppend lanes p ((input.drop i).take (j - i))) (c + (j - i))
        hchTail
        (fun x hx => by rw [hlen']; exact hmem x (List.mem_cons_of_mem _ hx))
        (by rw [setAppend_length, hl, hlen'])
        hcapTail
        (by omega)
    refine ⟨st, ln, ?_, by rw [hstl, hlen'], by rw [hlnl, setAppend_length], ?_, ?_, ?_⟩
    · have harith0 : c + (j - i) + ((rest.getLastD (q, j)).2 - j) =
          c + ((rest.getLastD (q, j)).2 - i) := by omega
      rw [hstep, hrun, harith0]
    · rw [hsum, sum_set_add status p _ hp]
      omega
    · intro r hr
      have hr' : r < (status.set p (status.getD p 0 + (j - i))).length := by
        rw [hlen']; exact hr
      have hler := hle r hr'
      by_cases hrp : p = r
      · subst hrp
        rw [getD_set_self status p _ hp] at hler
        omega
      · rw [getD_set_ne status p r _ hrp] at hler
        omega
    · have hperm2 : ln.flatten.Perm
          ((lanes.flatten ++ (input.drop i).take (j - i)) ++
            (input.drop j).take ((rest.getLastD (q, j)).2 - j)) := by
        refine hperm.trans (List.Perm.append_right _ ?_)
        exact setAppend_flatten_perm lanes p _ (by rw [hl]; exact hp)
      rw [List.append_assoc] at hperm2
      refine hperm2.trans (List.Perm.append_left _ ?_)
      have hdj : input.drop j = (input.drop i).drop (j - i) := by
        rw [List.drop_drop]
        congr 1
        omega
      rw [hdj, ← List.take_add]
      have harith : (j - i) + ((rest.getLastD (q, j)).2 - j) =
          (rest.getLastD (q, j)).2 - i := by omega
      rw [harith]

/-- A strictly increasing match list capped by `b` forms a `≤`-chain once
`b` is appended. -/
theorem chain_concat_le : ∀ (Δ : List (ℕ × ℕ)) (b : ℕ × ℕ),
    List.Chain' (fun x y => x.2 < y.2) Δ →
    (∀ x ∈ Δ, x.2 ≤ b.2) →
    List.Chain' (fun x y => x.2 ≤ y.2) (Δ ++ [b])
  | [], b, _, _ => by simp
  | a :: Δ, b, hch, hb => by
    have ih := chain_concat_le Δ b hch.tail
      (fun x hx => hb x (List.mem_cons_of_mem _ hx))
    rw [List.cons_append]
    refine List.chain'_cons'.mpr ⟨?_, ih⟩
    intro y hy
    cases Δ with
    | nil =>
      simp only [List.nil_append, List.head?_cons, Option.mem_def, Option.some.injEq] at hy
      subst hy
      exact hb a (List.mem_cons_self _ _)
    | cons c Δ' =>
      simp only [List.cons_append, List.head?_cons, Option.mem_def, Option.some.injEq] at hy
      subst hy
      exact le_of_lt (List.chain'_cons.mp hch).1

/-! ## Scan-loop lemmas (time-domain detector) -/

/-- Specification of `scan_loop` when log writes succeed (`logFails =
false`): the loop cannot fail, only appends to its accumulators, keeps
the current protocol index in range, and the appended match entries are
strictly increasing window positions within `[i, i + rem)`. -/
theorem scan_loop_spec (d : ProtocolDetector) (input : List ℂ) (norms : List ℝ) :
    ∀ (rem i cp : ℕ) (sp : Option ℕ) (ms : List (ℕ × ℕ)) (tags : List (ℕ × ℕ × String))
      (logs : List (ℕ × String)),
    cp < d.protocols.length →
    ∃ cpF spF Δ tagsΔ logsΔ,
      d.scan_loop input norms false rem i cp sp ms tags logs =
        .ok (cpF, spF, ms ++ Δ, tags ++ tagsΔ, logs ++ logsΔ) ∧
      cpF < d.protocols.length ∧
      (∀ x ∈ Δ, x.1 < d.protocols.length ∧ i ≤ x.2 ∧ x.2 < i + rem) ∧
      List.Chain' (fun x y => x.2 < y.2) Δ ∧
      (rem = 0 → cpF = cp ∧ spF = sp ∧ Δ = [] ∧ tagsΔ = [] ∧ logsΔ = [])
  | 0, i, cp, sp, ms, tags, logs, hcp => by
    refine ⟨cp, sp, [], [], [], ?_, hcp, by simp, by simp,
      fun _ => ⟨rfl, rfl, rfl, rfl, rfl⟩⟩
    simp [ProtocolDetector.scan_loop]
  | rem + 1, i, cp, sp, ms, tags, logs, hcp => by
    cases hfm : d.first_match input norms i with
    | none =>
      obtain ⟨cpF, spF, Δ, tagsΔ, logsΔ, heq, hcpF, hmem, hch, _⟩ :=
        scan_loop_spec d input norms rem (i + 1) cp sp ms tags logs hcp
      refine ⟨cpF, spF, Δ, tagsΔ, logsΔ, ?_, hcpF, ?_, hch,
        fun h => absurd h (Nat.succ_ne_zero _)⟩
      · simp only [ProtocolDetector.scan_loop, hfm]
        exact heq
      · intro x hx
        have := hmem x hx
        exact ⟨this.1, by omega, by omega⟩
    | some p =>
      have hp : p < d.protocols.length := by
        have := firstIdx_some_lt _ _ _ _ hfm
        omega
      by_cases hpc : p = cp
      · obtain ⟨cpF, spF, Δ, tagsΔ, logsΔ, heq, hcpF, hmem, hch, _⟩ :=
          scan_loop_spec d input norms rem (i + 1) cp sp ms tags
            (logs ++ [(d.current_index + i, (d.protocols.getD p defaultProtocol).name)]) hcp
        refine ⟨cpF, spF, Δ,
          tagsΔ, (d.current_index + i, (d.protocols.getD p defaultProtocol).name) :: logsΔ,
          ?_, hcpF, ?_, hch, fun h => absurd h (Nat.succ_ne_zero _)⟩
        · simp only [ProtocolDetector.scan_loop, hfm, if_pos hpc]
          rw [if_neg (by simp)]
          rw [heq, List.append_assoc]
          rfl
        · intro x hx
          have := hmem x hx
          exact ⟨this.1, by omega, by omega⟩
      · obtain ⟨cpF, spF, Δ, tagsΔ, logsΔ, heq, hcpF, hmem, hch, _⟩ :=
          scan_loop_spec d input norms rem (i + 1) p (some p) (ms ++ [(p, i)])
            (tags ++ [(p, i, (d.protocols.getD p defaultProtocol).name ++ " Start")])
            (logs ++ [(d.current_index + i, (d.protocols.getD p defaultProtocol).name)]) hp
        refine ⟨cpF, spF, (p, i) :: Δ,
          (p, i, (d.protocols.getD p defaultProtocol).name ++ " Start") :: tagsΔ,
          (d.current_index + i, (d.protocols.getD p defaultProtocol).name) :: logsΔ,
          ?_, hcpF, ?_, ?_, fun h => absurd h (Nat.succ_ne_zero _)⟩
        · simp only [ProtocolDetector.scan_loop, hfm, if_neg hpc]
          rw [if_neg (by simp)]
          rw [heq, List.append_assoc, List.append_assoc, List.append_assoc]
          rfl
        · intro x hx
          rcases List.mem_cons.mp hx with rfl | hx
          · exact ⟨hp, le_refl _, by omega⟩
          · have := hmem x hx
            exact ⟨this.1, by omega, by omega⟩
        · refine List.chain'_cons'.mpr ⟨?_, hch⟩
          intro y hy
          have hyΔ : y ∈ Δ := by
            cases Δ with
            | nil => simp at hy
            | cons z Δ' =>
              simp only [List.head?_cons, Option.mem_def, Option.some.injEq] at hy
              subst hy
              exact List.mem_cons_self _ _
          have := hmem y hyΔ
          show i < y.2
          omega

/-! ## The master specification of `ProtocolDetector::work` -/

/-- `max_process` never exceeds the input length. -/
theorem max_process_le_input (d : ProtocolDetector) (inputLen : ℕ) (outCaps : List ℕ) :
    d.max_process inputLen outCaps ≤ inputLen := by
  unfold ProtocolDetector.max_process
  omega

/-- When positive, `max_process + 1` is at most `min_output_len`. -/
theorem max_process_lt_minOut (d : ProtocolDetector) (inputLen : ℕ) (outCaps : List ℕ)
    (h : 0 < d.max_process inputLen outCaps) :
    d.max_process inputLen outCaps + 1 ≤ listMinD outCaps := by
  unfold ProtocolDetector.max_process at *
  omega

/-- Master specification of one `ProtocolDetector::work` cycle with
successful log writes: the call returns without a panic; the routed
totals balance; per-lane production never exceeds the lane's capacity;
the drain path moves exactly one sample to the current lane and the
finished flag is set exactly on empty finished input. -/
theorem work_spec (d : ProtocolDetector) (input : List ℂ) (inputFinished : Bool)
    (outCaps : List ℕ)
    (hcp : d.current_protocol.getD 0 < d.protocols.length)
    (hcaps : outCaps.length = d.protocols.length) :
    ∃ r, d.work input inputFinished outCaps false = .ok r ∧
      r.produced.length = d.protocols.length ∧
      r.produced.sum = r.consumed ∧
      r.consumed ≤ input.length ∧
      (∀ p < d.protocols.length, r.produced.getD p 0 ≤ outCaps.getD p 0) ∧
      (r.ioFinished = true ↔
        d.max_process input.length outCaps = 0 ∧ inputFinished = true ∧
          input.length = 0) ∧
      (d.max_process input.length outCaps = 0 →
        r.current_protocol = d.current_protocol) ∧
      (d.max_process input.length outCaps ≠ 0 →
        r.consumed = d.max_process input.length outCaps ∧
        r.lanes.flatten.Perm (input.take (d.max_process input.length outCaps))) ∧
      (d.max_process input.length outCaps = 0 →
        ((inputFinished = true ∧ 0 < input.length ∧
            0 < outCaps.getD (d.current_protocol.getD 0) 0) →
          r.consumed = 1 ∧
          r.produced.getD (d.current_protocol.getD 0) 0 = 1 ∧
          (∀ p < d.protocols.length, p ≠ d.current_protocol.getD 0 →
            r.produced.getD p 0 = 0) ∧
          r.lanes.getD (d.current_protocol.getD 0) [] = input.take 1) ∧
        (¬(inputFinished = true ∧ 0 < input.length ∧
            0 < outCaps.getD (d.current_protocol.getD 0) 0) →
          r.consumed = 0)) := by
  obtain ⟨cpF, spF, Δ, tagsΔ, logsΔ, hscaneq, hcpF, hmemΔ, hchΔ, hzero⟩ :=
    scan_loop_spec d input
      (calculate_norm_vector input
        ((d.protocols.headD defaultProtocol).sequences.headD defaultSequence).data.length)
      (d.max_process input.length outCaps) 0 (d.current_protocol.getD 0)
      d.current_protocol [] [] [] hcp
  simp only [List.nil_append] at hscaneq
  have hchainFull : List.Chain' (fun x y => x.2 ≤ y.2)
      ((d.current_protocol.getD 0, 0) ::
        (Δ ++ [(cpF, d.max_process input.length outCaps)])) := by
    refine List.chain'_cons'.mpr ⟨fun y _ => Nat.zero_le _, ?_⟩
    refine chain_concat_le Δ _ hchΔ ?_
    intro x hx
    have := hmemΔ x hx
    show x.2 ≤ d.max_process input.length outCaps
    omega
  have hmemFull : ∀ x ∈ (d.current_protocol.getD 0, 0) ::
      (Δ ++ [(cpF, d.max_process input.length outCaps)]),
      x.1 < (List.replicate d.protocols.length (0 : ℕ)).length := by
    intro x hx
    rw [List.length_replicate]
    rcases List.mem_cons.mp hx with rfl | hx
    · exact hcp
    · rcases List.mem_append.mp hx with hx | hx
      · exact (hmemΔ x hx).1
      · rcases List.mem_singleton.mp hx with rfl
        exact hcpF
  have hlastEq : ((Δ ++ [(cpF, d.max_process input.length outCaps)]).getLastD
      (d.current_protocol.getD 0, 0)).2 = d.max_process input.length outCaps := by
    rw [getLastD_concat_eq]
  have hcapPre : ∀ r < (List.replicate d.protocols.length (0 : ℕ)).length,
      (List.replicate d.protocols.length (0 : ℕ)).getD r 0 +
        (((Δ ++ [(cpF, d.max_process input.length outCaps)]).getLastD
          (d.current_protocol.getD 0, 0)).2 - 0) ≤ outCaps.getD r 0 := by
    intro r hr
    rw [List.length_replicate] at hr
    rw [hlastEq, getD_replicate_of_lt _ _ _ hr]
    rcases Nat.eq_zero_or_pos (d.max_process input.length outCaps) with h0 | hpos
    · omega
    · have h1 := max_process_lt_minOut d input.length outCaps hpos
      have h2 := listMinD_le outCaps r (by omega)
      omega
  have hinPre : ((Δ ++ [(cpF, d.max_process input.length outCaps)]).getLastD
      (d.current_protocol.getD 0, 0)).2 ≤ input.length := by
    rw [hlastEq]
    exact max_process_le_input d input.length outCaps
  obtain ⟨st, ln, hroute, hstl, hlnl, hsum, hle, hperm⟩ :=
    routeLoop_ok input outCaps (Δ ++ [(cpF, d.max_process input.length outCaps)])
      (d.current_protocol.getD 0) 0
      (List.replicate d.protocols.length 0) (List.replicate d.protocols.length []) 0
      hchainFull hmemFull (by simp) hcapPre hinPre
  rw [hlastEq] at hroute hsum hle hperm
  simp only [Nat.sub_zero, Nat.zero_add, List.length_replicate, List.sum_replicate,
    Nat.smul_one_eq_cast, List.drop_zero] at hroute hstl hlnl hsum hle hperm
  have hflat : (List.replicate d.protocols.length ([] : List ℂ)).flatten = [] := by
    simp
  rw [hflat, List.nil_append] at hperm
  have hsum0 : st.sum = d.max_process input.length outCaps := by
    simpa using hsum
  have hle0 : ∀ r < d.protocols.length,
      st.getD r 0 ≤ d.max_process input.length outCaps := by
    intro r hr
    have := hle r (by simpa using hr)
    rw [getD_replicate_of_lt _ _ _ hr] at this
    omega
  have hcapsLane : ∀ r < d.protocols.length,
      st.getD r 0 ≤ outCaps.getD r 0 := by
    intro r hr
    rcases Nat.eq_zero_or_pos (d.max_process input.length outCaps) with h0 | hpos
    · have := hle0 r hr
      omega
    · have h1 := max_process_lt_minOut d input.length outCaps hpos
      have h2 := listMinD_le outCaps r (by omega)
      have := hle0 r hr
      omega
  -- now case analysis over the drain branch
  by_cases hmp0 : d.max_process input.length outCaps = 0
  · obtain ⟨hcpFz, hspFz, hΔz, htagsz, hlogsz⟩ := hzero hmp0
    subst hΔz
    have hstz : ∀ r < d.protocols.length, st.getD r 0 = 0 := by
      intro r hr
      have := hle0 r hr
      omega
    have hlnz : ln.flatten = [] := by
      rw [hmp0] at hperm
      simpa using hperm.eq_nil
    have hlaneNil : ∀ q < d.protocols.length, ln.getD q [] = [] := by
      intro q hq
      have hq' : q < ln.length := by
        rw [hlnl]
        exact hq
      have hmem : ln.getD q [] ∈ ln := by
        rw [List.getD_eq_getElem?_getD, List.getElem?_eq_getElem hq']
        simp
      rw [List.flatten_eq_nil_iff] at hlnz
      exact hlnz _ hmem
    by_cases hfin : inputFinished = true
    · by_cases hlen : 0 < input.length
      · by_cases hcap : 0 < outCaps.getD (d.current_protocol.getD 0) 0
        · -- drain fires: one sample to the current lane
          have hwork : d.work input inputFinished outCaps false =
              .ok { consumed := 1 + d.max_process input.length outCaps,
                    produced := st.set (d.current_protocol.getD 0)
                      (st.getD (d.current_protocol.getD 0) 0 + 1),
                    lanes := setAppend ln (d.current_protocol.getD 0) (input.take 1),
                    tags := tagsΔ, logs := logsΔ,
                    ioFinished := false,
                    current_protocol := spF,
                    current_index :=
                      d.current_index + d.max_process input.length outCaps } := by
            simp only [ProtocolDetector.work]
            rw [if_pos ⟨hmp0, hfin⟩, if_pos (by omega : d.current_protocol.getD 0 <
              d.protocols.length), if_pos hlen, if_pos hcap]
            dsimp only
            rw [hscaneq]
            dsimp only
            rw [List.cons_append, hroute]
            dsimp only
            rw [if_neg (by omega)]
            rw [if_pos rfl, if_pos rfl]
          refine ⟨_, hwork, ?_, ?_, ?_, ?_, ?_, ?_, ?_, ?_⟩
          · simp only []
            rw [List.length_set, hstl]
          · simp only []
            rw [sum_set_add st _ _ (by rw [hstl]; exact hcp), hsum0, hmp0]
          · simp only []
            omega
          · intro p hp
            simp only []
            by_cases hpc : d.current_protocol.getD 0 = p
            · subst hpc
              rw [getD_set_self st _ _ (by rw [hstl]; exact hcp)]
              rw [hstz _ hcp]
              omega
            · rw [getD_set_ne st _ _ _ hpc]
              exact hcapsLane p hp
          · simp only []
            constructor
            · intro h
              exact absurd h (by simp)
            · intro h
              omega
          · intro _
            simpa using hspFz
          · intro h
            exact absurd hmp0 h
          · intro _
            constructor
            · intro _
              refine ⟨by simp [hmp0], ?_, ?_, ?_⟩
              · simp only []
                rw [getD_set_self st _ _ (by rw [hstl]; exact hcp), hstz _ hcp]
              · intro p hp hne
                simp only []
                rw [getD_set_ne st _ _ _ (fun h => hne h.symm)]
                exact hstz p hp
              · simp only []
                rw [setAppend_getD_self ln _ _ (by rw [hlnl]; exact hcp)]
                rw [hlaneNil _ hcp, List.nil_append]
            · intro hnot
              exact absurd ⟨hfin, hlen, hcap⟩ hnot
        · -- finished, input available, but no output space: nothing happens
          have hwork : d.work input inputFinished outCaps false =
              .ok { consumed := 0 + d.max_process input.length outCaps,
                    produced := st,
                    lanes := ln,
                    tags := tagsΔ, logs := logsΔ,
                    ioFinished := false,
                    current_protocol := spF,
                    current_index :=
                      d.current_index + d.max_process input.length outCaps } := by
            simp only [ProtocolDetector.work]
            rw [if_pos ⟨hmp0, hfin⟩, if_pos (by omega : d.current_protocol.getD 0 <
              d.protocols.length), if_pos hlen, if_neg hcap]
            dsimp only
            rw [hscaneq]
            dsimp only
            rw [List.cons_append, hroute]
            dsimp only
            rw [if_neg (by omega)]
            rw [if_neg (by omega), if_neg (by omega)]
          refine ⟨_, hwork, ?_, ?_, ?_, ?_, ?_, ?_, ?_, ?_⟩
          · simpa using hstl
          · simp only []
            omega
          · simp only []
            omega
          · intro p hp
            exact hcapsLane p hp
          · simp only []
            constructor
            · intro h
              exact absurd h (by simp)
            · intro h
              omega
          · intro _
            simpa using hspFz
          · intro h
            exact absurd hmp0 h
          · intro _
            constructor
            · intro hyes
              exact absurd hyes.2.2 hcap
            · intro _
              simp only []
              omega
      · -- finished and empty input: the block marks itself finished
        have hlen0 : input.length = 0 := by omega
        have hwork : d.work input inputFinished outCaps false =
            .ok { consumed := 0 + d.max_process input.length outCaps,
                  produced := st,
                  lanes := ln,
                  tags := tagsΔ, logs := logsΔ,
                  ioFinished := true,
                  current_protocol := spF,
                  current_index :=
                    d.current_index + d.max_process input.length outCaps } := by
          simp only [ProtocolDetector.work]
          rw [if_pos ⟨hmp0, hfin⟩, if_pos (by omega : d.current_protocol.getD 0 <
            d.protocols.length), if_neg hlen]
          dsimp only
          rw [hscaneq]
          dsimp only
          rw [List.cons_append, hroute]
          dsimp only
          rw [if_neg (by omega)]
          rw [if_neg (by omega), if_neg (by omega)]
        refine ⟨_, hwork, ?_, ?_, ?_, ?_, ?_, ?_, ?_, ?_⟩
        · simpa using hstl
        · simp only []
          omega
        · simp only []
          omega
        · intro p hp
          exact hcapsLane p hp
        · simp only []
          exact ⟨fun _ => ⟨hmp0, hfin, hlen0⟩, fun _ => trivial⟩
        · intro _
          simpa using hspFz
        · intro h
          exact absurd hmp0 h
        · intro _
          constructor
          · intro hyes
            exact absurd hyes.2.1 hlen
          · intro _
            simp only []
            omega
    · -- input not finished: no drain
      have hfin' : inputFinished = false := by
        cases inputFinished
        · rfl
        · exact absurd rfl hfin
      have hwork : d.work input inputFinished outCaps false =
          .ok { consumed := 0 + d.max_process input.length outCaps,
                produced := st,
                lanes := ln,
                tags := tagsΔ, logs := logsΔ,
                ioFinished := false,
                current_protocol := spF,
                current_index :=
                  d.current_index + d.max_process input.length outCaps } := by
        simp only [ProtocolDetector.work]
        rw [if_neg (by simp [hfin'])]
        dsimp only
        rw [hscaneq]
        dsimp only
        rw [List.cons_append, hroute]
        dsimp only
        rw [if_neg (by omega)]
        rw [if_neg (by omega), if_neg (by omega)]
      refine ⟨_, hwork, ?_, ?_, ?_, ?_, ?_, ?_, ?_, ?_⟩
      · simpa using hstl
      · simp only []
        omega
      · simp only []
        omega
      · intro p hp
        exact hcapsLane p hp
      · simp only []
        constructor
        · intro h
          exact absurd h (by simp)
        · intro h
          rw [hfin'] at h
          exact absurd h.2.1 (by simp)
      · intro _
        simpa using hspFz
      · intro h
        exact absurd hmp0 h
      · intro _
        constructor
        · intro hyes
          rw [hfin'] at hyes
          exact absurd hyes.1 (by simp)
        · intro _
          simp only []
          omega
  · -- max_process positive: regular scan-and-route cycle, no drain
    have hwork : d.work input inputFinished outCaps false =
        .ok { consumed := 0 + d.max_process input.length outCaps,
              produced := st,
              lanes := ln,
              tags := tagsΔ, logs := logsΔ,
              ioFinished := false,
              current_protocol := spF,
              current_index :=
                d.current_index + d.max_process input.length outCaps } := by
      simp only [ProtocolDetector.work]
      rw [if_neg (fun h => hmp0 h.1)]
      dsimp only
      rw [hscaneq]
      dsimp only
      rw [List.cons_append, hroute]
      dsimp only
      rw [if_neg (by omega)]
      rw [if_neg (by omega), if_neg (by omega)]
    refine ⟨_, hwork, ?_, ?_, ?_, ?_, ?_, ?_, ?_, ?_⟩
    · simpa using hstl
    · simp only []
      omega
    · have := max_process_le_input d input.length outCaps
      simp only []
      omega
    · intro p hp
      exact hcapsLane p hp
    · simp only []
      constructor
      · intro h
        exact absurd h (by simp)
      · intro h
        exact absurd h.1 hmp0
    · intro h
      exact absurd h hmp0
    · intro _
      refine ⟨by simp only []; omega, ?_⟩
      simpa using hperm
    · intro h
      exact absurd h hmp0

/-! ## Claim C1: routed totals balance -/

/-- C1: in every work cycle of the time-domain `ProtocolDetector` with
`max_process > 0`, the total produced over all lanes equals the number of
consumed samples and both equal `max_process`; the routed lane contents
are, as a multiset, exactly the `max_process` consumed samples (every
consumed sample is copied to exactly one lane).  The cycle passes the
source's `consumed == max_process` assertion (no `exit(1)`). -/
theorem c1_produced_equals_consumed (d : ProtocolDetector) (input : List ℂ)
    (inputFinished : Bool) (outCaps : List ℕ)
    (hcp : d.current_protocol.getD 0 < d.protocols.length)
    (hcaps : outCaps.length = d.protocols.length)
    (hmp : 0 < d.max_process input.length outCaps) :
    ∃ r, d.work input inputFinished outCaps false = .ok r ∧
      r.consumed = d.max_process input.length outCaps ∧
      r.produced.sum = d.max_process input.length outCaps ∧
      r.produced.length = d.protocols.length ∧
      r.lanes.flatten.Perm (input.take (d.max_process input.length outCaps)) := by
  obtain ⟨r, hw, hlen, hsum, _, _, _, _, hpos, _⟩ :=
    work_spec d input inputFinished outCaps hcp hcaps
  obtain ⟨hc, hperm⟩ := hpos (by omega)
  exact ⟨r, hw, hc, by rw [hsum, hc], hlen, hperm⟩

/-- Closed witness for `c1_produced_equals_consumed` on a concrete
two-protocol detector, three input samples, and two lanes of capacity 3
(`max_process = 2`). -/
theorem c1_produced_equals_consumed_witness :
    (dTime.current_protocol.getD 0 < dTime.protocols.length ∧
      ([3, 3] : List ℕ).length = dTime.protocols.length ∧
      0 < dTime.max_process ([1, 1, 1] : List ℂ).length [3, 3]) ∧
    ∃ r, dTime.work [1, 1, 1] false [3, 3] false = .ok r ∧
      r.consumed = dTime.max_process ([1, 1, 1] : List ℂ).length [3, 3] ∧
      r.produced.sum = dTime.max_process ([1, 1, 1] : List ℂ).length [3, 3] ∧
      r.produced.length = dTime.protocols.length ∧
      r.lanes.flatten.Perm
        (([1, 1, 1] : List ℂ).take (dTime.max_process ([1, 1, 1] : List ℂ).length [3, 3])) := by
  have h1 : dTime.current_protocol.getD 0 < dTime.protocols.length := by
    simp [dTime]
  have h2 : ([3, 3] : List ℕ).length = dTime.protocols.length := by
    simp [dTime]
  have h3 : 0 < dTime.max_process ([1, 1, 1] : List ℂ).length [3, 3] := by
    simp [dTime, ProtocolDetector.max_process, listMinD]
  exact ⟨⟨h1, h2, h3⟩, c1_produced_equals_consumed dTime [1, 1, 1] false [3, 3] h1 h2 h3⟩

/-! ## Claim C5: drain behaviour of the time-domain detector -/

/-- C5: when the input is reported finished and `max_process = 0`, a work
cycle of the time-domain detector routes exactly one remaining sample to
the lane of `current_protocol` (provided a sample remains and that lane
has space), `current_protocol` does not change, and the block marks
itself finished exactly when the input buffer is empty. -/
theorem c5_drain (d : ProtocolDetector) (input : List ℂ) (outCaps : List ℕ)
    (hcp : d.current_protocol.getD 0 < d.protocols.length)
    (hcaps : outCaps.length = d.protocols.length)
    (hmp : d.max_process input.length outCaps = 0) :
    ∃ r, d.work input true outCaps false = .ok r ∧
      r.current_protocol = d.current_protocol ∧
      (0 < input.length → 0 < outCaps.getD (d.current_protocol.getD 0) 0 →
        r.consumed = 1 ∧
        r.produced.getD (d.current_protocol.getD 0) 0 = 1 ∧
        (∀ p < d.protocols.length, p ≠ d.current_protocol.getD 0 →
          r.produced.getD p 0 = 0) ∧
        r.lanes.getD (d.current_protocol.getD 0) [] = input.take 1 ∧
        r.ioFinished = false) ∧
      (input.length = 0 → r.ioFinished = true ∧ r.consumed = 0) := by
  obtain ⟨r, hw, _, _, _, _, hiff, hcur, _, hdrain⟩ :=
    work_spec d input true outCaps hcp hcaps
  refine ⟨r, hw, hcur hmp, ?_, ?_⟩
  · intro hlen hcap
    obtain ⟨h1, h2, h3, h4⟩ := (hdrain hmp).1 ⟨rfl, hlen, hcap⟩
    refine ⟨h1, h2, h3, h4, ?_⟩
    cases hio : r.ioFinished
    · rfl
    · have := hiff.mp hio
      omega
  · intro hlen0
    refine ⟨hiff.mpr ⟨hmp, rfl, hlen0⟩, (hdrain hmp).2 ?_⟩
    intro hyes
    omega

/-- Closed witness for `c5_drain`: one remaining sample below the window
length is drained to lane 0 of the concrete two-protocol detector. -/
theorem c5_drain_witness :
    (dTime.current_protocol.getD 0 < dTime.protocols.length ∧
      ([3, 3] : List ℕ).length = dTime.protocols.length ∧
      dTime.max_process ([1] : List ℂ).length [3, 3] = 0) ∧
    ∃ r, dTime.work [1] true [3, 3] false = .ok r ∧
      r.current_protocol = dTime.current_protocol ∧
      (0 < ([1] : List ℂ).length → 0 < ([3, 3] : List ℕ).getD (dTime.current_protocol.getD 0) 0 →
        r.consumed = 1 ∧
        r.produced.getD (dTime.current_protocol.getD 0) 0 = 1 ∧
        (∀ p < dTime.protocols.length, p ≠ dTime.current_protocol.getD 0 →
          r.produced.getD p 0 = 0) ∧
        r.lanes.getD (dTime.current_protocol.getD 0) [] = ([1] : List ℂ).take 1 ∧
        r.ioFinished = false) ∧
      (([1] : List ℂ).length = 0 → r.ioFinished = true ∧ r.consumed = 0) := by
  have h1 : dTime.current_protocol.getD 0 < dTime.protocols.length := by
    simp [dTime]
  have h2 : ([3, 3] : List ℕ).length = dTime.protocols.length := by
    simp [dTime]
  have h3 : dTime.max_process ([1] : List ℂ).length [3, 3] = 0 := by
    simp [dTime, ProtocolDetector.max_process, listMinD]
  exact ⟨⟨h1, h2, h3⟩, c5_drain dTime [1] [3, 3] h1 h2 h3⟩

/-! ## Claim C6: first-wins tie-breaking -/

/-- C6: at a window position where two protocols both match (`p < q`,
both full preambles above threshold), the scan selects the first matching
protocol in declaration order — an index `j ≤ p` matching with all
earlier protocols failing (so no protocol after the first match is ever
consulted).  Processing that single position switches at most once and,
on a switch, appends exactly one `"<name> Start"` tag and exactly one
match-log record; without a switch only the log record is appended. -/
theorem c6_first_wins (d : ProtocolDetector) (input : List ℂ) (norms : List ℝ)
    (i p q : ℕ)
    (hpq : p < q) (hq : q < d.protocols.length)
    (hp : d.match_protocol input norms i (d.protocols.getD p defaultProtocol) = true)
    (hqm : d.match_protocol input norms i (d.protocols.getD q defaultProtocol) = true) :
    ∃ j, d.first_match input norms i = some j ∧ j ≤ p ∧
      d.match_protocol input norms i (d.protocols.getD j defaultProtocol) = true ∧
      (∀ m < j, d.match_protocol input norms i (d.protocols.getD m defaultProtocol) = false) ∧
      (∀ (cp : ℕ) (sp : Option ℕ) (ms : List (ℕ × ℕ)) (tags : List (ℕ × ℕ × String))
          (logs : List (ℕ × String)), j ≠ cp →
        d.scan_loop input norms false 1 i cp sp ms tags logs =
          .ok (j, some j, ms ++ [(j, i)],
            tags ++ [(j, i, (d.protocols.getD j defaultProtocol).name ++ " Start")],
            logs ++ [(d.current_index + i, (d.protocols.getD j defaultProtocol).name)])) ∧
      (∀ (cp : ℕ) (sp : Option ℕ) (ms : List (ℕ × ℕ)) (tags : List (ℕ × ℕ × String))
          (logs : List (ℕ × String)), j = cp →
        d.scan_loop input norms false 1 i cp sp ms tags logs =
          .ok (cp, sp, ms, tags,
            logs ++ [(d.current_index + i, (d.protocols.getD j defaultProtocol).name)])) := by
  obtain ⟨j, hj, hjp⟩ := firstIdx_some_of_exists defaultProtocol
    (fun pr => d.match_protocol input norms i pr) d.protocols 0 p
    (lt_trans hpq hq) hp
  have hfm : d.first_match input norms i = some j := hj
  have hspec := firstIdx_spec defaultProtocol
    (fun pr => d.match_protocol input norms i pr) d.protocols 0 j hj
  simp only [Nat.sub_zero] at hspec
  refine ⟨j, hfm, by omega, hspec.1, hspec.2, ?_, ?_⟩
  · intro cp sp ms tags logs hne
    simp only [ProtocolDetector.scan_loop, hfm]
    simp only [if_neg hne]
    rw [if_neg (by simp)]
  · intro cp sp ms tags logs heq
    simp only [ProtocolDetector.scan_loop, hfm]
    simp only [if_pos heq]
    rw [if_neg (by simp)]

/-- Closed witness for `c6_first_wins`: two identical protocols both
matching the all-ones window at position 0. -/
theorem c6_first_wins_witness :
    (0 < 1 ∧ 1 < dTime.protocols.length ∧
      dTime.match_protocol [1, 1] (calculate_norm_vector [1, 1] 1) 0
        (dTime.protocols.getD 0 defaultProtocol) = true ∧
      dTime.match_protocol [1, 1] (calculate_norm_vector [1, 1] 1) 0
        (dTime.protocols.getD 1 defaultProtocol) = true) ∧
    ∃ j, dTime.first_match [1, 1] (calculate_norm_vector [1, 1] 1) 0 = some j ∧ j ≤ 0 ∧
      dTime.match_protocol [1, 1] (calculate_norm_vector [1, 1] 1) 0
        (dTime.protocols.getD j defaultProtocol) = true ∧
      (∀ m < j, dTime.match_protocol [1, 1] (calculate_norm_vector [1, 1] 1) 0
        (dTime.protocols.getD m defaultProtocol) = false) ∧
      (∀ (cp : ℕ) (sp : Option ℕ) (ms : List (ℕ × ℕ)) (tags : List (ℕ × ℕ × String))
          (logs : List (ℕ × String)), j ≠ cp →
        dTime.scan_loop [1, 1] (calculate_norm_vector [1, 1] 1) false 1 0 cp sp ms tags logs =
          .ok (j, some j, ms ++ [(j, 0)],
            tags ++ [(j, 0, (dTime.protocols.getD j defaultProtocol).name ++ " Start")],
            logs ++ [(dTime.current_index + 0, (dTime.protocols.getD j defaultProtocol).name)])) ∧
      (∀ (cp : ℕ) (sp : Option ℕ) (ms : List (ℕ × ℕ)) (tags : List (ℕ × ℕ × String))
          (logs : List (ℕ × String)), j = cp →
        dTime.scan_loop [1, 1] (calculate_norm_vector [1, 1] 1) false 1 0 cp sp ms tags logs =
          .ok (cp, sp, ms, tags,
            logs ++ [(dTime.current_index + 0, (dTime.protocols.getD j defaultProtocol).name)])) := by
  have hnorm : calculate_norm_vector [1, 1] 1 = [1, 1] := by
    norm_num [calculate_norm_vector, calculate_norm_vector.go,
      Complex.normSq_one, Real.sqrt_one]
  have hmatchA : dTime.match_protocol [1, 1] (calculate_norm_vector [1, 1] 1) 0
      (dTime.protocols.getD 0 defaultProtocol) = true := by
    rw [hnorm]
    norm_num [dTime, protoA, ProtocolDetector.match_protocol, match_seqs,
      ProtocolDetector.normalized_dot_product, seqOne, Sequence.new, sqrtNorm,
      Complex.normSq_one, Real.sqrt_one, Complex.one_re]
  have hmatchB : dTime.match_protocol [1, 1] (calculate_norm_vector [1, 1] 1) 0
      (dTime.protocols.getD 1 defaultProtocol) = true := by
    rw [hnorm]
    norm_num [dTime, protoB, ProtocolDetector.match_protocol, match_seqs,
      ProtocolDetector.normalized_dot_product, seqOne, Sequence.new, sqrtNorm,
      Complex.normSq_one, Real.sqrt_one, Complex.one_re]
  have hlen2 : 1 < dTime.protocols.length := by simp [dTime]
  exact ⟨⟨Nat.zero_lt_one, hlen2, hmatchA, hmatchB⟩,
    c6_first_wins dTime [1, 1] (calculate_norm_vector [1, 1] 1) 0 0 1
      Nat.zero_lt_one hlen2 hmatchA hmatchB⟩

/-! ## Scan-loop failure on a failing log write -/

/-- When debug logging to a file is enabled and the log write fails, the
scan loop aborts with an error as soon as any scanned position matches a
protocol (the source's `self.log_sequence_match(..)?`). -/
theorem scan_loop_error_of_match (d : ProtocolDetector) (input : List ℂ) (norms : List ℝ)
    (hdbg : d.debug_enabled = true) (hfile : d.debug_log_file.isSome = true) :
    ∀ (rem i cp : ℕ) (sp : Option ℕ) (ms : List (ℕ × ℕ)) (tags : List (ℕ × ℕ × String))
      (logs : List (ℕ × String)),
    (∃ j, i ≤ j ∧ j < i + rem ∧ (d.first_match input norms j).isSome = true) →
    d.scan_loop input norms true rem i cp sp ms tags logs = .error "log write failed"
  | 0, i, cp, sp, ms, tags, logs, h => by
    obtain ⟨j, h1, h2, _⟩ := h
    omega
  | rem + 1, i, cp, sp, ms, tags, logs, h => by
    obtain ⟨j, h1, h2, hj⟩ := h
    cases hfm : d.first_match input norms i with
    | some p =>
      simp only [ProtocolDetector.scan_loop, hfm]
      rw [if_pos ⟨hdbg, hfile, by trivial⟩]
    | none =>
      have hji : j ≠ i := by
        intro he
        rw [he, hfm] at hj
        simp at hj
      simp only [ProtocolDetector.scan_loop, hfm]
      exact scan_loop_error_of_match d input norms hdbg hfile rem (i + 1) cp sp ms tags
        logs ⟨j, by omega, by omega, hj⟩

/-! ## FFT-loop lemmas -/

/-- A sync hit returned by `fft_corr_normalized` is below the sync
length. -/
theorem fft_corr_normalized_lt (sync : Sequence_fft) (window : List ℂ)
    (norm_vector : List ℝ) (hit : ℕ)
    (h : ProtocolDetectorFFT.fft_corr_normalized sync window norm_vector = some hit) :
    hit < sync.sequence.data.length := by
  have := firstIdx_some_lt _ _ _ _ h
  simpa using this

/-- `match_protocols` does not panic when the discriminator window fits. -/
theorem match_protocols_no_panic (input : List ℂ) (start : ℕ) (protocols : List Protocol)
    (h : start + ((protocols.headD defaultProtocol).sequences.headD
      defaultSequence).data.length ≤ input.length) :
    ∃ o, ProtocolDetectorFFT.match_protocols input start protocols = .ok o := by
  unfold ProtocolDetectorFFT.match_protocols
  rw [if_neg (by omega)]
  exact ⟨_, rfl⟩

/-- A protocol index returned by `match_protocols` is in range. -/
theorem match_protocols_some_lt (input : List ℂ) (start : ℕ) (protocols : List Protocol)
    (p : ℕ)
    (h : ProtocolDetectorFFT.match_protocols input start protocols = .ok (some p)) :
    p < protocols.length := by
  unfold ProtocolDetectorFFT.match_protocols at h
  by_cases hg : input.length < start + ((protocols.headD defaultProtocol).sequences.headD
      defaultSequence).data.length
  · rw [if_pos hg] at h
    cases h
  · rw [if_neg hg] at h
    simp only [Except.ok.injEq] at h
    have := firstIdx_some_lt _ _ _ _ h
    omega

/-- Appending a strictly larger index keeps a hit list strictly
increasing. -/
theorem chain_concat_lt : ∀ (Δ : List (ℕ × ℕ)) (b : ℕ × ℕ),
    List.Chain' (fun x y => x.1 < y.1) Δ →
    (∀ x ∈ Δ, x.1 < b.1) →
    List.Chain' (fun x y => x.1 < y.1) (Δ ++ [b])
  | [], b, _, _ => by simp
  | a :: Δ, b, hch, hb => by
    have ih := chain_concat_lt Δ b hch.tail
      (fun x hx => hb x (List.mem_cons_of_mem _ hx))
    rw [List.cons_append]
    refine List.chain'_cons'.mpr ⟨?_, ih⟩
    intro y hy
    cases Δ with
    | nil =>
      simp only [List.nil_append, List.head?_cons, Option.mem_def, Option.some.injEq] at hy
      subst hy
      exact hb a (List.mem_cons_self _ _)
    | cons c Δ' =>
      simp only [List.cons_append, List.head?_cons, Option.mem_def, Option.some.injEq] at hy
      subst hy
      exact (List.chain'_cons.mp hch).1

/-- Specification of the FFT work loop when log writes succeed: it
terminates without a panic under the input-length precondition, hit
indices are strictly increasing and stay below the final loop index,
recorded protocols are in range, and the final index stays below
`max_process + step`. -/
theorem fftLoop_spec (sync : Sequence_fft) (protocols : List Protocol) (seqLen0 : ℕ)
    (hasLogFile : Bool) (input : List ℂ) (maxP : ℕ)
    (hL : 0 < seqLen0)
    (hsyncL : sync.sequence.data.length = seqLen0)
    (hin : maxP + 3 * seqLen0 ≤ input.length)
    (hdisc : ((protocols.headD defaultProtocol).sequences.headD
      defaultSequence).data.length = seqLen0)
    (i cp : ℕ) (queue : List ℝ) (rsum : ℝ) (hits : List (ℕ × ℕ))
    (hcp : cp < protocols.length)
    (hmem : ∀ x ∈ hits, x.2 < protocols.length ∧ x.1 < i)
    (hch : List.Chain' (fun a b => a.1 < b.1) hits) :
    ∃ iF cpF queueF rsumF Δ,
      ProtocolDetectorFFT.fftLoop sync protocols seqLen0 hasLogFile false input maxP
        (2 * seqLen0) seqLen0 i cp queue rsum hits =
        .ok (iF, cpF, queueF, rsumF, hits ++ Δ) ∧
      cpF < protocols.length ∧
      (∀ x ∈ hits ++ Δ, x.2 < protocols.length ∧ x.1 < iF) ∧
      List.Chain' (fun a b => a.1 < b.1) (hits ++ Δ) ∧
      i ≤ iF ∧
      (i < maxP → i + seqLen0 ≤ iF) ∧
      (i < maxP → iF ≤ maxP + seqLen0 - 1) ∧
      (maxP ≤ i → iF = i) := by
  by_cases hcond : i < maxP ∧ 0 < seqLen0
  · obtain ⟨hilt, _⟩ := hcond
    rw [ProtocolDetectorFFT.fftLoop, dif_pos ⟨hilt, hL⟩]
    rw [if_neg (by omega)]
    dsimp only
    cases hcorr : ProtocolDetectorFFT.fft_corr_normalized sync
        ((input.drop i).take (2 * seqLen0))
        (update_norm_vector queue rsum ((input.drop i).take (2 * seqLen0))
          sync.sequence.data.length).1 with
    | none =>
      obtain ⟨iF, cpF, queueF, rsumF, Δ, heq, h1, h2, h3, h4, h4b, h5, h6⟩ :=
        fftLoop_spec sync protocols seqLen0 hasLogFile input maxP hL hsyncL hin hdisc
          (i + seqLen0) cp
          (update_norm_vector queue rsum ((input.drop i).take (2 * seqLen0))
            sync.sequence.data.length).2.1
          (update_norm_vector queue rsum ((input.drop i).take (2 * seqLen0))
            sync.sequence.data.length).2.2
          hits hcp (fun x hx => ⟨(hmem x hx).1, by have := (hmem x hx).2; omega⟩) hch
      refine ⟨iF, cpF, queueF, rsumF, Δ, heq, h1, h2, h3, by omega, by omega, ?_, ?_⟩
      · intro _
        by_cases hnext : i + seqLen0 < maxP
        · exact h5 hnext
        · have := h6 (by omega)
          omega
      · intro h
        omega
    | some hit =>
      have hhit : hit < seqLen0 := by
        have := fft_corr_normalized_lt sync _ _ _ hcorr
        omega
      dsimp only
      rw [if_neg (by omega)]
      obtain ⟨o, ho⟩ := match_protocols_no_panic (input.drop (i + hit + seqLen0)) 0
        protocols (by rw [hdisc]; simp; omega)
      rw [ho]
      cases o with
      | none =>
        obtain ⟨iF, cpF, queueF, rsumF, Δ, heq, h1, h2, h3, h4, h4b, h5, h6⟩ :=
          fftLoop_spec sync protocols seqLen0 hasLogFile input maxP hL hsyncL hin hdisc
            (i + seqLen0) cp
            (update_norm_vector queue rsum ((input.drop i).take (2 * seqLen0))
              sync.sequence.data.length).2.1
            (update_norm_vector queue rsum ((input.drop i).take (2 * seqLen0))
              sync.sequence.data.length).2.2
            hits hcp (fun x hx => ⟨(hmem x hx).1, by have := (hmem x hx).2; omega⟩) hch
        refine ⟨iF, cpF, queueF, rsumF, Δ, heq, h1, h2, h3, by omega, by omega, ?_, ?_⟩
        · intro _
          by_cases hnext : i + seqLen0 < maxP
          · exact h5 hnext
          · have := h6 (by omega)
            omega
        · intro h
          omega
      | some detected =>
        have hdet : detected < protocols.length :=
          match_protocols_some_lt _ _ _ _ ho
        dsimp only
        rw [if_neg (by simp)]
        obtain ⟨iF, cpF, queueF, rsumF, Δ, heq, h1, h2, h3, h4, h4b, h5, h6⟩ :=
          fftLoop_spec sync protocols seqLen0 hasLogFile input maxP hL hsyncL hin hdisc
            (i + seqLen0) detected
            (update_norm_vector queue rsum ((input.drop i).take (2 * seqLen0))
              sync.sequence.data.length).2.1
            (update_norm_vector queue rsum ((input.drop i).take (2 * seqLen0))
              sync.sequence.data.length).2.2
            (hits ++ [(i + hit, detected)]) hdet
            (by
              intro x hx
              rcases List.mem_append.mp hx with hx | hx
              · exact ⟨(hmem x hx).1, by have := (hmem x hx).2; omega⟩
              · rcases List.mem_singleton.mp hx with rfl
                exact ⟨hdet, by omega⟩)
            (chain_concat_lt hits (i + hit, detected) hch
              (fun x hx => by have := (hmem x hx).2; omega))
        refine ⟨iF, cpF, queueF, rsumF, (i + hit, detected) :: Δ, ?_, h1, ?_, ?_,
          by omega, by omega, ?_, ?_⟩
        · rw [heq, List.append_assoc]
          rfl
        · intro x hx
          apply h2
          rw [List.append_assoc]
          exact hx
        · have := h3
          rw [List.append_assoc] at this
          exact this
        · intro _
          by_cases hnext : i + seqLen0 < maxP
          · exact h5 hnext
          · have := h6 (by omega)
            omega
        · intro h
          omega
  · rw [ProtocolDetectorFFT.fftLoop, dif_neg hcond]
    refine ⟨i, cp, queue, rsum, [], by simp, hcp, ?_, by simpa using hch,
      le_refl i, ?_, ?_, fun _ => rfl⟩
    · intro x hx
      rw [List.append_nil] at hx
      exact hmem x hx
    · intro h
      exact absurd ⟨h, hL⟩ hcond
    · intro h
      exact absurd ⟨h, hL⟩ hcond
termination_by maxP - i
decreasing_by all_goals omega

/-- Specification of the post-routing tail of `ProtocolDetectorFFT::work`:
no panic given a valid current protocol, and the consumed/produced totals
stay within the input and per-lane capacities. -/
theorem finishStep_spec (d : ProtocolDetectorFFT) (input : List ℂ) (inputFinished : Bool)
    (outCaps : List ℕ) (cpF : ℕ) (queueF : List ℝ) (rsumF : ℝ)
    (status : List ℕ) (lanes : List (List ℂ)) (consumed : ℕ)
    (hcpF : cpF < d.protocols.length)
    (hstl : status.length = d.protocols.length)
    (hcons : consumed ≤ input.length)
    (hcap : ∀ p < d.protocols.length, status.getD p 0 ≤ outCaps.getD p 0) :
    ∃ r, d.finishStep input inputFinished outCaps cpF queueF rsumF status lanes consumed =
        .ok r ∧
      r.consumed ≤ input.length ∧
      r.produced.length = d.protocols.length ∧
      (∀ p < d.protocols.length, r.produced.getD p 0 ≤ outCaps.getD p 0) := by
  unfold ProtocolDetectorFFT.finishStep
  by_cases hfin : inputFinished = true
  · rw [if_pos hfin]
    by_cases hemp : (input.drop consumed).length = 0
    · rw [if_pos hemp]
      exact ⟨_, rfl, hcons, hstl, hcap⟩
    · rw [if_neg hemp, if_pos hcpF]
      by_cases hsp : 1 ≤ outCaps.getD cpF 0 - status.getD cpF 0
      · rw [if_pos hsp]
        refine ⟨_, rfl, ?_, ?_, ?_⟩
        · have hlt : consumed < input.length := by
            rw [List.length_drop] at hemp
            omega
          simp only []
          omega
        · simp only []
          rw [List.length_set, hstl]
        · intro p hp
          simp only []
          by_cases hpc : cpF = p
          · subst hpc
            rw [getD_set_self status _ _ (by rw [hstl]; exact hcpF)]
            have := hcap cpF hcpF
            omega
          · rw [getD_set_ne status _ _ _ hpc]
            exact hcap p hp
      · rw [if_neg hsp]
        exact ⟨_, rfl, hcons, hstl, hcap⟩
  · rw [if_neg hfin]
    exact ⟨_, rfl, hcons, hstl, hcap⟩

/-- Master specification of one `ProtocolDetectorFFT::work` cycle with
successful log writes: the call returns without a panic, its consumed
count never exceeds the available input, and every lane's produced count
stays within that lane's output capacity. -/
theorem fft_work_spec (d : ProtocolDetectorFFT) (input : List ℂ) (inputFinished : Bool)
    (outCaps : List ℕ)
    (hL : 0 < d.sequence_lengths.getD 0 0)
    (hsyncL : d.sync_sequence.sequence.data.length = d.sequence_lengths.getD 0 0)
    (hdisc : ((d.protocols.headD defaultProtocol).sequences.headD
      defaultSequence).data.length = d.sequence_lengths.getD 0 0)
    (hcp : d.current_protocol.getD 0 < d.protocols.length)
    (hcaps : outCaps.length = d.protocols.length) :
    ∃ r, d.work input inputFinished outCaps false = .ok r ∧
      r.consumed ≤ input.length ∧
      r.produced.length = d.protocols.length ∧
      (∀ p < d.protocols.length, r.produced.getD p 0 ≤ outCaps.getD p 0) := by
  by_cases hmp : min (input.length - (3 * d.sequence_lengths.getD 0 0 - 1))
      (listMinD outCaps - (2 * d.sequence_lengths.getD 0 0 - 1)) - 1 = 0
  · -- the loop does not run; only the drain tail can act
    obtain ⟨r, hfs, hrc, hrl, hrb⟩ := finishStep_spec d input inputFinished outCaps
      (d.current_protocol.getD 0) d.norm_queue d.running_sum
      (List.replicate d.protocols.length 0) (List.replicate d.protocols.length []) 0
      hcp (by simp) (by omega)
      (fun p hp => by rw [getD_replicate_of_lt _ _ _ hp]; omega)
    refine ⟨r, ?_, hrc, hrl, hrb⟩
    simp only [ProtocolDetectorFFT.work]
    rw [ProtocolDetectorFFT.fftLoop, dif_neg (by omega)]
    dsimp only
    rw [if_neg (by omega)]
    exact hfs
  · -- regular windowed cycle
    have hin : (min (input.length - (3 * d.sequence_lengths.getD 0 0 - 1))
        (listMinD outCaps - (2 * d.sequence_lengths.getD 0 0 - 1)) - 1) +
        3 * d.sequence_lengths.getD 0 0 ≤ input.length := by
      omega
    have hminOut : (min (input.length - (3 * d.sequence_lengths.getD 0 0 - 1))
        (listMinD outCaps - (2 * d.sequence_lengths.getD 0 0 - 1)) - 1) +
        2 * d.sequence_lengths.getD 0 0 ≤ listMinD outCaps := by
      omega
    obtain ⟨iF, cpF, queueF, rsumF, Δ, hloop, hcpF, hmemF, hchF, _, hprog, hub, _⟩ :=
      fftLoop_spec d.sync_sequence d.protocols (d.sequence_lengths.getD 0 0)
        d.match_log_file input
        (min (input.length - (3 * d.sequence_lengths.getD 0 0 - 1))
          (listMinD outCaps - (2 * d.sequence_lengths.getD 0 0 - 1)) - 1)
        hL hsyncL hin hdisc 0 (d.current_protocol.getD 0) d.norm_queue d.running_sum []
        hcp (by simp) (by simp)
    simp only [List.nil_append] at hloop hmemF hchF
    have hiFpos : 0 < iF := by
      have := hprog (by omega)
      omega
    have hiFub : iF ≤ (min (input.length - (3 * d.sequence_lengths.getD 0 0 - 1))
        (listMinD outCaps - (2 * d.sequence_lengths.getD 0 0 - 1)) - 1) +
        d.sequence_lengths.getD 0 0 - 1 := hub (by omega)
    -- routing over the swapped hits list
    have hchain : List.Chain' (fun x y => x.2 ≤ y.2)
        ((d.current_protocol.getD 0, 0) ::
          (Δ.map (fun x => (x.2, x.1)) ++ [(cpF, iF)])) := by
      refine List.chain'_cons'.mpr ⟨fun y _ => Nat.zero_le _, ?_⟩
      refine chain_concat_le _ _ ?_ ?_
      · rw [List.chain'_map]
        exact hchF
      · intro x hx
        obtain ⟨y, hy, rfl⟩ := List.mem_map.mp hx
        exact le_of_lt (hmemF y hy).2
    have hmemAll : ∀ x ∈ (d.current_protocol.getD 0, 0) ::
        (Δ.map (fun x => (x.2, x.1)) ++ [(cpF, iF)]),
        x.1 < (List.replicate d.protocols.length (0 : ℕ)).length := by
      intro x hx
      rw [List.length_replicate]
      rcases List.mem_cons.mp hx with rfl | hx
      · exact hcp
      · rcases List.mem_append.mp hx with hx | hx
        · obtain ⟨y, hy, rfl⟩ := List.mem_map.mp hx
          exact (hmemF y hy).1
        · rcases List.mem_singleton.mp hx with rfl
          exact hcpF
    have hlastEq : ((Δ.map (fun x => (x.2, x.1)) ++ [(cpF, iF)]).getLastD
        (d.current_protocol.getD 0, 0)).2 = iF := by
      rw [getLastD_concat_eq]
    obtain ⟨st, ln, hroute, hstl, hlnl, hsum, hle, hperm⟩ :=
      routeLoop_ok input outCaps (Δ.map (fun x => (x.2, x.1)) ++ [(cpF, iF)])
        (d.current_protocol.getD 0) 0
        (List.replicate d.protocols.length 0) (List.replicate d.protocols.length []) 0
        hchain hmemAll (by simp)
        (by
          intro r hr
          rw [List.length_replicate] at hr
          rw [hlastEq, getD_replicate_of_lt _ _ _ hr]
          have h2 := listMinD_le outCaps r (by omega)
          omega)
        (by rw [hlastEq]; omega)
    rw [hlastEq] at hroute hle
    simp only [Nat.sub_zero, Nat.zero_add, List.length_replicate] at hroute hstl hle
    obtain ⟨r, hfs, hrc, hrl, hrb⟩ := finishStep_spec d input inputFinished outCaps
      cpF queueF rsumF st ln iF hcpF hstl (by omega)
      (fun p hp => by
        have := hle p (by omega)
        rw [getD_replicate_of_lt _ _ _ hp] at this
        have h2 := listMinD_le outCaps p (by omega)
        omega)
    refine ⟨r, ?_, hrc, hrl, hrb⟩
    simp only [ProtocolDetectorFFT.work]
    rw [show 2 * d.sequence_lengths.getD 0 0 / 2 = d.sequence_lengths.getD 0 0 by omega]
    rw [hloop]
    dsimp only
    rw [if_pos hiFpos]
    simp only [List.map_append, List.map_cons, List.map_nil]
    rw [List.cons_append, hroute]
    dsimp only
    exact hfs

/-- When the match-log file is present and a run with successful log
writes records at least one new sequence hit, the same run with failing
log writes aborts with an error at the first hit (the source's
`self.log_match(..)?`). -/
theorem fftLoop_error_of_hit (sync : Sequence_fft) (protocols : List Protocol)
    (seqLen0 : ℕ) (input : List ℂ) (maxP window_length step_size : ℕ)
    (i cp : ℕ) (queue : List ℝ) (rsum : ℝ) (hits : List (ℕ × ℕ))
    (r : ℕ × ℕ × List ℝ × ℝ × List (ℕ × ℕ))
    (hok : ProtocolDetectorFFT.fftLoop sync protocols seqLen0 true false input maxP
      window_length step_size i cp queue rsum hits = .ok r)
    (hgrew : hits.length < r.2.2.2.2.length) :
    ProtocolDetectorFFT.fftLoop sync protocols seqLen0 true true input maxP
      window_length step_size i cp queue rsum hits = .error "log write failed" := by
  by_cases hcond : i < maxP ∧ 0 < step_size
  · rw [ProtocolDetectorFFT.fftLoop, dif_pos hcond] at hok ⊢
    by_cases hwin : input.length < i + window_length
    · rw [if_pos hwin] at hok
      cases hok
    · rw [if_neg hwin] at hok ⊢
      dsimp only at hok ⊢
      cases hcorr : ProtocolDetectorFFT.fft_corr_normalized sync
          ((input.drop i).take window_length)
          (update_norm_vector queue rsum ((input.drop i).take window_length)
            sync.sequence.data.length).1 with
      | none =>
        rw [hcorr] at hok
        exact fftLoop_error_of_hit sync protocols seqLen0 input maxP window_length
          step_size (i + step_size) cp _ _ hits r hok hgrew
      | some hit =>
        rw [hcorr] at hok
        dsimp only at hok ⊢
        by_cases hseq : input.length < i + hit + seqLen0
        · rw [if_pos hseq] at hok
          cases hok
        · rw [if_neg hseq] at hok ⊢
          cases hmpr : ProtocolDetectorFFT.match_protocols
              (input.drop (i + hit + seqLen0)) 0 protocols with
          | error e =>
            rw [hmpr] at hok
            dsimp only at hok
            cases hok
          | ok o =>
            rw [hmpr] at hok
            cases o with
            | none =>
              dsimp only at hok ⊢
              exact fftLoop_error_of_hit sync protocols seqLen0 input maxP window_length
                step_size (i + step_size) cp _ _ hits r hok hgrew
            | some detected =>
              dsimp only at hok ⊢
              rw [if_pos ⟨rfl, rfl⟩]
  · rw [ProtocolDetectorFFT.fftLoop, dif_neg hcond] at hok
    simp only [Except.ok.injEq] at hok
    rw [← hok] at hgrew
    simp at hgrew
termination_by maxP - i
decreasing_by all_goals omega

/-! ## Claim C9: consumed/produced stay within the buffers -/

/-- C9: in every work cycle of either detector (with successful log
writes) no buffer is overrun: the time-domain detector consumes
`max_process ≤ min(|input| − L + 1, min_out) − 1` samples and each lane's
produced count stays within its capacity; the FFT detector's final routed
index and per-lane produced counts stay within the input and every
output buffer (both `work` calls return without hitting any slice-bound
panic). -/
theorem c9_backpressure_bounds
    (d : ProtocolDetector) (input : List ℂ) (inputFinished : Bool) (outCaps : List ℕ)
    (dF : ProtocolDetectorFFT) (inputF : List ℂ) (inputFinishedF : Bool)
    (outCapsF : List ℕ)
    (hcp : d.current_protocol.getD 0 < d.protocols.length)
    (hcaps : outCaps.length = d.protocols.length)
    (hL1 : 1 ≤ d.total_protocol_length)
    (hLF : 0 < dF.sequence_lengths.getD 0 0)
    (hsyncL : dF.sync_sequence.sequence.data.length = dF.sequence_lengths.getD 0 0)
    (hdiscF : ((dF.protocols.headD defaultProtocol).sequences.headD
      defaultSequence).data.length = dF.sequence_lengths.getD 0 0)
    (hcpF : dF.current_protocol.getD 0 < dF.protocols.length)
    (hcapsF : outCapsF.length = dF.protocols.length) :
    (∃ r, d.work input inputFinished outCaps false = .ok r ∧
      r.consumed ≤ input.length ∧
      (∀ p < d.protocols.length, r.produced.getD p 0 ≤ outCaps.getD p 0) ∧
      (0 < d.max_process input.length outCaps →
        r.consumed = d.max_process input.length outCaps ∧
        (d.max_process input.length outCaps : ℤ) ≤
          min ((input.length : ℤ) - d.total_protocol_length + 1)
            (listMinD outCaps) - 1)) ∧
    (∃ rF, dF.work inputF inputFinishedF outCapsF false = .ok rF ∧
      rF.consumed ≤ inputF.length ∧
      (∀ p < dF.protocols.length, rF.produced.getD p 0 ≤ outCapsF.getD p 0)) := by
  constructor
  · obtain ⟨r, hw, _, _, hcons, hbound, _, _, hpos, _⟩ :=
      work_spec d input inputFinished outCaps hcp hcaps
    refine ⟨r, hw, hcons, hbound, ?_⟩
    intro hmp
    refine ⟨(hpos (by omega)).1, ?_⟩
    unfold ProtocolDetector.max_process at hmp ⊢
    omega
  · obtain ⟨rF, hwF, h1, _, h3⟩ :=
      fft_work_spec dF inputF inputFinishedF outCapsF hLF hsyncL hdiscF hcpF hcapsF
    exact ⟨rF, hwF, h1, h3⟩

/-- Closed witness for `c9_backpressure_bounds` on the concrete
time-domain and FFT detectors. -/
theorem c9_backpressure_bounds_witness :
    (dTime.current_protocol.getD 0 < dTime.protocols.length ∧
      ([3, 3] : List ℕ).length = dTime.protocols.length ∧
      1 ≤ dTime.total_protocol_length ∧
      0 < dFFT.sequence_lengths.getD 0 0 ∧
      dFFT.sync_sequence.sequence.data.length = dFFT.sequence_lengths.getD 0 0 ∧
      ((dFFT.protocols.headD defaultProtocol).sequences.headD
        defaultSequence).data.length = dFFT.sequence_lengths.getD 0 0 ∧
      dFFT.current_protocol.getD 0 < dFFT.protocols.length ∧
      ([5] : List ℕ).length = dFFT.protocols.length) ∧
    ((∃ r, dTime.work [1, 1, 1] false [3, 3] false = .ok r ∧
      r.consumed ≤ ([1, 1, 1] : List ℂ).length ∧
      (∀ p < dTime.protocols.length, r.produced.getD p 0 ≤ ([3, 3] : List ℕ).getD p 0) ∧
      (0 < dTime.max_process ([1, 1, 1] : List ℂ).length [3, 3] →
        r.consumed = dTime.max_process ([1, 1, 1] : List ℂ).length [3, 3] ∧
        (dTime.max_process ([1, 1, 1] : List ℂ).length [3, 3] : ℤ) ≤
          min ((([1, 1, 1] : List ℂ).length : ℤ) - dTime.total_protocol_length + 1)
            (listMinD [3, 3]) - 1)) ∧
    (∃ rF, dFFT.work [1, 1, 1, 1] false [5] false = .ok rF ∧
      rF.consumed ≤ ([1, 1, 1, 1] : List ℂ).length ∧
      (∀ p < dFFT.protocols.length, rF.produced.getD p 0 ≤ ([5] : List ℕ).getD p 0))) := by
  have h1 : dTime.current_protocol.getD 0 < dTime.protocols.length := by simp [dTime]
  have h2 : ([3, 3] : List ℕ).length = dTime.protocols.length := by simp [dTime]
  have h3 : 1 ≤ dTime.total_protocol_length := by simp [dTime]
  have h4 : 0 < dFFT.sequence_lengths.getD 0 0 := by simp [dFFT]
  have h5 : dFFT.sync_sequence.sequence.data.length = dFFT.sequence_lengths.getD 0 0 := by
    simp [dFFT, syncFFT1, Sequence_fft.new, Sequence.new]
  have h6 : ((dFFT.protocols.headD defaultProtocol).sequences.headD
      defaultSequence).data.length = dFFT.sequence_lengths.getD 0 0 := by
    simp [dFFT, protoA, seqOne, Sequence.new]
  have h7 : dFFT.current_protocol.getD 0 < dFFT.protocols.length := by simp [dFFT]
  have h8 : ([5] : List ℕ).length = dFFT.protocols.length := by simp [dFFT]
  exact ⟨⟨h1, h2, h3, h4, h5, h6, h7, h8⟩,
    c9_backpressure_bounds dTime [1, 1, 1] false [3, 3] dFFT [1, 1, 1, 1] false [5]
      h1 h2 h3 h4 h5 h6 h7 h8⟩

/-! ## Concrete evaluation helpers -/

/-- DFT of the all-ones 2-point window. -/
theorem dft_one_one : dft [(1 : ℂ), 1] = [2, 0] := by
  have hexp : Complex.exp (-(2 * (Real.pi : ℂ) * Complex.I) / 2) = -1 := by
    rw [show (-(2 * (Real.pi : ℂ) * Complex.I) / 2 : ℂ) = -(Real.pi * Complex.I) by ring]
    rw [Complex.exp_neg, Complex.exp_pi_mul_I]
    norm_num
  simp [dft, Finset.sum_range_succ, List.range_succ, hexp]
  norm_num

/-- DFT of the zero-padded length-1 sync `[1]`. -/
theorem dft_one_zero : dft [(1 : ℂ), 0] = [1, 1] := by
  simp [dft, Finset.sum_range_succ, List.range_succ]

/-- Inverse DFT of `[2, 0]`. -/
theorem idft_two_zero : idft [(2 : ℂ), 0] = [2, 2] := by
  simp [idft, Finset.sum_range_succ, List.range_succ]

/-- The all-ones rolling norm vector over `[1, 1]` with window 1. -/
theorem calc_norm_ones : calculate_norm_vector [1, 1] 1 = [1, 1] := by
  norm_num [calculate_norm_vector, calculate_norm_vector.go,
    Complex.normSq_one, Real.sqrt_one]

/-- `protoA`'s length-1 all-ones discriminator matches the all-ones
window at position 0 in any detector whose `sequence_lengths` is `[1]`. -/
theorem match_protoA_ones (d : ProtocolDetector) (hsl : d.sequence_lengths = [1]) :
    d.match_protocol [1, 1] (calculate_norm_vector [1, 1] 1) 0 protoA = true := by
  rw [calc_norm_ones]
  norm_num [ProtocolDetector.match_protocol, hsl, protoA, match_seqs,
    ProtocolDetector.normalized_dot_product, seqOne, Sequence.new, sqrtNorm,
    Complex.normSq_one, Real.sqrt_one, Complex.one_re]

/-- One concrete FFT-loop cycle on four unit samples (sync `[1]`,
protocol `A`, `max_process = 1`): the single window hits the sync at
offset 0 and matches protocol 0, recording one hit. -/
theorem fftLoop_ones :
    ProtocolDetectorFFT.fftLoop syncFFT1 [protoA] 1 true false [1, 1, 1, 1] 1 2 1
      0 0 [] 0 [] = .ok (1, 0, [1], 1, [(0, 0)]) := by
  have hsdl : syncFFT1.sequence.data.length = 1 := by
    simp [syncFFT1, Sequence_fft.new, Sequence.new]
  have hsyncfft : syncFFT1.fft = [1, 1] := by
    have h : syncFFT1.fft = dft ([1] ++ List.replicate 1 0) := by
      simp [syncFFT1, Sequence_fft.new, Sequence.new]
    rw [h, show ([1] ++ List.replicate 1 0 : List ℂ) = [1, 0] from rfl, dft_one_zero]
  have hsyncnorm : syncFFT1.sequence.norm = 1 := by
    simp [syncFFT1, Sequence_fft.new, Sequence.new, sqrtNorm,
      Complex.normSq_one, Real.sqrt_one]
  have hsyncthr : syncFFT1.sequence.threshold = 1 / 2 := by
    simp [syncFFT1, Sequence_fft.new, Sequence.new]
  have hunv : update_norm_vector [] 0 [(1 : ℂ), 1] 1 = ([1], [1], 1) := by
    norm_num [update_norm_vector, update_norm_vector.go, Complex.normSq_one]
  have hcorr : ProtocolDetectorFFT.fft_corr_normalized syncFFT1 [(1 : ℂ), 1] [1]
      = some 0 := by
    simp only [ProtocolDetectorFFT.fft_corr_normalized]
    rw [hsyncfft, dft_one_one, hsdl]
    rw [show List.zipWith (fun w s => w * (starRingEnd ℂ) s) [(2 : ℂ), 0] [(1 : ℂ), 1]
      = [2, 0] by simp]
    rw [idft_two_zero]
    norm_num [firstIdx, List.range_succ, hsyncnorm, hsyncthr, Complex.ofReal_re]
  have hmpr : ProtocolDetectorFFT.match_protocols [(1 : ℂ), 1, 1] 0 [protoA]
      = .ok (some 0) := by
    simp only [ProtocolDetectorFFT.match_protocols]
    norm_num [protoA, seqOne, Sequence.new, firstIdx, normalized_dot_product,
      sqrtNorm, Complex.normSq_one, Real.sqrt_one, Complex.one_re]
  rw [ProtocolDetectorFFT.fftLoop, dif_pos ⟨Nat.zero_lt_one, Nat.zero_lt_one⟩]
  rw [if_neg (by norm_num)]
  dsimp only
  rw [hsdl]
  rw [show (List.take 2 (List.drop 0 ([1, 1, 1, 1] : List ℂ))) = [1, 1] from rfl]
  rw [hunv]
  dsimp only
  rw [hcorr]
  dsimp only
  rw [if_neg (by norm_num)]
  rw [show List.drop (0 + 0 + 1) ([1, 1, 1, 1] : List ℂ) = [1, 1, 1] from rfl]
  rw [hmpr]
  dsimp only
  rw [if_neg (by simp)]
  rw [ProtocolDetectorFFT.fftLoop, dif_neg (by omega)]
  rfl

/-! ## Claim C7: a failing match-log write is fatal to the cycle -/

/-- C7 (amended): a failure to write a match-log record propagates out of
`work` as an error in both detectors, aborting the cycle, instead of
being reported to stderr with logging disabled: whenever the time-domain
scan reaches a matching position with debug-logging to a file enabled, or
the FFT loop (run with the same inputs) records at least one sequence
hit with a match-log file present, the `work` call with a failing log
write returns `Except.error`. -/
theorem c7_log_write_failure_propagates :
    (∀ (d : ProtocolDetector) (input : List ℂ) (inputFinished : Bool) (outCaps : List ℕ),
      d.debug_enabled = true → d.debug_log_file.isSome = true →
      (∃ j, j < d.max_process input.length outCaps ∧
        (d.first_match input
          (calculate_norm_vector input
            ((d.protocols.headD defaultProtocol).sequences.headD
              defaultSequence).data.length) j).isSome = true) →
      d.work input inputFinished outCaps true = .error "log write failed") ∧
    (∀ (dF : ProtocolDetectorFFT) (input : List ℂ) (inputFinished : Bool)
        (outCaps : List ℕ) (r : ℕ × ℕ × List ℝ × ℝ × List (ℕ × ℕ)),
      dF.match_log_file = true →
      ProtocolDetectorFFT.fftLoop dF.sync_sequence dF.protocols
        (dF.sequence_lengths.getD 0 0) dF.match_log_file false input
        (min (input.length - (3 * dF.sequence_lengths.getD 0 0 - 1))
          (listMinD outCaps - (2 * dF.sequence_lengths.getD 0 0 - 1)) - 1)
        (2 * dF.sequence_lengths.getD 0 0) (2 * dF.sequence_lengths.getD 0 0 / 2)
        0 (dF.current_protocol.getD 0) dF.norm_queue dF.running_sum [] = .ok r →
      r.2.2.2.2 ≠ [] →
      dF.work input inputFinished outCaps true = .error "log write failed") := by
  constructor
  · intro d input inputFinished outCaps hdbg hfile ⟨j, hj, hjm⟩
    simp only [ProtocolDetector.work]
    rw [if_neg (fun hc => by omega)]
    dsimp only
    rw [scan_loop_error_of_match d input _ hdbg hfile _ 0 _ _ [] [] []
      ⟨j, Nat.zero_le j, by omega, hjm⟩]
  · intro dF input inputFinished outCaps r hmlf hok hne
    rw [hmlf] at hok
    simp only [ProtocolDetectorFFT.work]
    rw [hmlf]
    rw [fftLoop_error_of_hit dF.sync_sequence dF.protocols
      (dF.sequence_lengths.getD 0 0) input _ _ _ 0 (dF.current_protocol.getD 0)
      dF.norm_queue dF.running_sum [] r hok
      (by
        have := List.length_pos.mpr hne
        simpa using this)]

/-- C7 counterexample: on a concrete detector with debug logging to a
file, a matching input, and a failing log write, `work` returns an
error — it does not return successfully. -/
theorem c7_counterexample :
    dTimeLog.work [1, 1] false [3, 3] true = .error "log write failed" ∧
    ∀ r, dTimeLog.work [1, 1] false [3, 3] true ≠ .ok r := by
  have hwl : ((dTimeLog.protocols.headD defaultProtocol).sequences.headD
      defaultSequence).data.length = 1 := by
    simp [dTimeLog, protoA, seqOne, Sequence.new]
  have hfm : (dTimeLog.first_match [1, 1]
      (calculate_norm_vector [1, 1]
        ((dTimeLog.protocols.headD defaultProtocol).sequences.headD
          defaultSequence).data.length) 0).isSome = true := by
    rw [hwl]
    have hm := match_protoA_ones dTimeLog (by simp [dTimeLog])
    unfold ProtocolDetector.first_match
    rw [show dTimeLog.protocols = [protoA, protoB] from rfl]
    simp [firstIdx, hm]
  have hmp : 0 < dTimeLog.max_process ([1, 1] : List ℂ).length [3, 3] := by
    simp [dTimeLog, ProtocolDetector.max_process, listMinD]
  have hwe : dTimeLog.work [1, 1] false [3, 3] true = .error "log write failed" := by
    simp only [ProtocolDetector.work]
    rw [if_neg (by simp)]
    dsimp only
    rw [scan_loop_error_of_match dTimeLog [1, 1] _ rfl rfl _ 0 _ _ [] [] []
      ⟨0, Nat.zero_le 0, by omega, hfm⟩]
  refine ⟨hwe, fun r h => ?_⟩
  rw [hwe] at h
  cases h

/-- Closed witness for `c7_log_write_failure_propagates` on both concrete
detectors. -/
theorem c7_log_write_failure_propagates_witness :
    (dTimeLog.debug_enabled = true ∧ dTimeLog.debug_log_file.isSome = true ∧
      (∃ j, j < dTimeLog.max_process ([1, 1] : List ℂ).length [3, 3] ∧
        (dTimeLog.first_match [1, 1]
          (calculate_norm_vector [1, 1]
            ((dTimeLog.protocols.headD defaultProtocol).sequences.headD
              defaultSequence).data.length) j).isSome = true) ∧
      dTimeLog.work [1, 1] false [3, 3] true = .error "log write failed") ∧
    (dFFT.match_log_file = true ∧
      ProtocolDetectorFFT.fftLoop dFFT.sync_sequence dFFT.protocols
        (dFFT.sequence_lengths.getD 0 0) dFFT.match_log_file false [1, 1, 1, 1]
        (min (([1, 1, 1, 1] : List ℂ).length - (3 * dFFT.sequence_lengths.getD 0 0 - 1))
          (listMinD [3] - (2 * dFFT.sequence_lengths.getD 0 0 - 1)) - 1)
        (2 * dFFT.sequence_lengths.getD 0 0) (2 * dFFT.sequence_lengths.getD 0 0 / 2)
        0 (dFFT.current_protocol.getD 0) dFFT.norm_queue dFFT.running_sum [] =
          .ok (1, 0, [1], 1, [(0, 0)]) ∧
      ((1, 0, [1], 1, [(0, 0)]) : ℕ × ℕ × List ℝ × ℝ × List (ℕ × ℕ)).2.2.2.2 ≠ [] ∧
      dFFT.work [1, 1, 1, 1] false [3] true = .error "log write failed") := by
  have hdbg : dTimeLog.debug_enabled = true := rfl
  have hfile : dTimeLog.debug_log_file.isSome = true := rfl
  have hwl : ((dTimeLog.protocols.headD defaultProtocol).sequences.headD
      defaultSequence).data.length = 1 := by
    simp [dTimeLog, protoA, seqOne, Sequence.new]
  have hfm : (dTimeLog.first_match [1, 1]
      (calculate_norm_vector [1, 1]
        ((dTimeLog.protocols.headD defaultProtocol).sequences.headD
          defaultSequence).data.length) 0).isSome = true := by
    rw [hwl]
    have hm := match_protoA_ones dTimeLog (by simp [dTimeLog])
    unfold ProtocolDetector.first_match
    rw [show dTimeLog.protocols = [protoA, protoB] from rfl]
    simp [firstIdx, hm]
  have hmp : 0 < dTimeLog.max_process ([1, 1] : List ℂ).length [3, 3] := by
    simp [dTimeLog, ProtocolDetector.max_process, listMinD]
  have hex : ∃ j, j < dTimeLog.max_process ([1, 1] : List ℂ).length [3, 3] ∧
      (dTimeLog.first_match [1, 1]
        (calculate_norm_vector [1, 1]
          ((dTimeLog.protocols.headD defaultProtocol).sequences.headD
            defaultSequence).data.length) j).isSome = true :=
    ⟨0, hmp, hfm⟩
  have hmlf : dFFT.match_log_file = true := rfl
  have hfloop : ProtocolDetectorFFT.fftLoop dFFT.sync_sequence dFFT.protocols
      (dFFT.sequence_lengths.getD 0 0) dFFT.match_log_file false [1, 1, 1, 1]
      (min (([1, 1, 1, 1] : List ℂ).length - (3 * dFFT.sequence_lengths.getD 0 0 - 1))
        (listMinD [3] - (2 * dFFT.sequence_lengths.getD 0 0 - 1)) - 1)
      (2 * dFFT.sequence_lengths.getD 0 0) (2 * dFFT.sequence_lengths.getD 0 0 / 2)
      0 (dFFT.current_protocol.getD 0) dFFT.norm_queue dFFT.running_sum [] =
        .ok (1, 0, [1], 1, [(0, 0)]) := by
    have h1 : dFFT.sequence_lengths.getD 0 0 = 1 := by simp [dFFT]
    have h2 : (min (([1, 1, 1, 1] : List ℂ).length -
        (3 * dFFT.sequence_lengths.getD 0 0 - 1))
        (listMinD [3] - (2 * dFFT.sequence_lengths.getD 0 0 - 1)) - 1) = 1 := by
      simp [dFFT, listMinD]
    rw [h2, h1]
    show ProtocolDetectorFFT.fftLoop dFFT.sync_sequence dFFT.protocols 1
      dFFT.match_log_file false [1, 1, 1, 1] 1 (2 * 1) (2 * 1 / 2)
      0 (dFFT.current_protocol.getD 0) dFFT.norm_queue dFFT.running_sum [] = _
    rw [show (2 * 1 : ℕ) = 2 from rfl, show (2 * 1 / 2 : ℕ) = 1 from rfl]
    exact fftLoop_ones
  have hne : ((1, 0, [1], 1, [(0, 0)]) : ℕ × ℕ × List ℝ × ℝ ×
      List (ℕ × ℕ)).2.2.2.2 ≠ [] := by
    simp
  exact ⟨⟨hdbg, hfile, hex,
      c7_log_write_failure_propagates.1 dTimeLog [1, 1] false [3, 3] hdbg hfile hex⟩,
    ⟨hmlf, hfloop, hne,
      c7_log_write_failure_propagates.2 dFFT [1, 1, 1, 1] false [3] _ hmlf hfloop hne⟩⟩

/-! ## Claims C4 and C10: the multi-port inserter -/

/-- C10: not every `MultiPortInserter` slice access stays within bounds.
In the post-sequence copy, `data_to_copy` is clamped by `input.len()`
instead of `input.len() - input_consumed`, so on a freshly constructed
inserter whose tag sits at index 1 with packet length 2 while the input
holds only 2 samples, the source range `input[1..3]` leaves the input
slice and the work call faults instead of copying in bounds. -/
theorem c10_post_copy_out_of_bounds :
    (MultiPortInserter.new [("p", "t")] [[1]] 0 0).work
      [{ data := [0, 0], finished := false,
         tags := [{ index := 1, tag := RTag.namedUsize "t" 2 }] }] 10 =
      .error "slice index out of range" := by
  rfl

/-- C4: on a burst that fits within one work call, the inserter emits the
input samples before the tagged position, then `pad_front` zeros, the
port's configured sequence unchanged, then `pad_back` zeros, then exactly
`packet_length` further input samples from the same port; it consumes the
pre-tag and packet samples from that port and resets, rotating the served
port to the back of `port_order`. -/
theorem c4_spliced_preamble (ports : List (String × String))
    (seqs : List (List ℂ)) (pf pb : ℕ) (inputs : List PortInput) (outCap : ℕ)
    (pidx k len : ℕ)
    (hnf : ((List.range ports.length).all fun i =>
      (inputs.getD i defaultPortInput).data.isEmpty &&
      (inputs.getD i defaultPortInput).finished) = false)
    (hscan : scanPorts ports inputs (List.range ports.length)
      = some (pidx, k, len))
    (hpx : pidx < seqs.length)
    (hkl : k + len ≤ (inputs.getD pidx defaultPortInput).data.length)
    (hcap : k + (pf + (seqs.getD pidx []).length + pb) + len ≤ outCap) :
    (MultiPortInserter.new ports seqs pf pb).work inputs outCap =
      .ok { state := { MultiPortInserter.new ports seqs pf pb with
              port_order :=
                (List.range ports.length).filter (fun p => p != pidx) ++ [pidx] },
            consumed := some (pidx, k + len),
            out := (inputs.getD pidx defaultPortInput).data.take k ++
              (List.replicate pf 0 ++ seqs.getD pidx [] ++ List.replicate pb 0) ++
              ((inputs.getD pidx defaultPortInput).data.drop k).take len,
            ioFinished := false } := by
  have hpad : (seqs.map fun seq =>
      List.replicate pf (0 : ℂ) ++ seq ++ List.replicate pb 0).getD pidx [] =
      List.replicate pf (0 : ℂ) ++ seqs.getD pidx [] ++ List.replicate pb 0 := by
    simp [List.getD_eq_getElem?_getD, List.getElem?_map,
      List.getElem?_eq_getElem hpx]
  simp only [MultiPortInserter.work, MultiPortInserter.new]
  rw [if_neg (by rw [hnf]; exact Bool.false_ne_true)]
  dsimp only [Option.isNone]
  rw [if_pos rfl, hscan]
  dsimp only [Option.getD]
  rw [hpad]
  have hpre : (if (0 : ℕ) < k then
      min (k - 0) (min (inputs.getD pidx defaultPortInput).data.length outCap)
      else 0) = k := by
    rcases Nat.eq_zero_or_pos k with hk0 | hkpos
    · rw [if_neg (by omega)]; omega
    · rw [if_pos hkpos]
      have h1 : k ≤ (inputs.getD pidx defaultPortInput).data.length := by omega
      have h2 : k ≤ outCap := by
        have := (seqs.getD pidx []).length
        omega
      omega
  rw [hpre]
  have htt : (true : Bool) = true := rfl
  rw [if_pos htt]
  dsimp only
  have hplen : (List.replicate pf (0 : ℂ) ++ seqs.getD pidx [] ++
      List.replicate pb 0).length = pf + (seqs.getD pidx []).length + pb := by
    simp
    omega
  have hdi : min ((List.replicate pf (0 : ℂ) ++ seqs.getD pidx [] ++
      List.replicate pb 0).length - 0) (outCap - k) =
      (List.replicate pf (0 : ℂ) ++ seqs.getD pidx [] ++
        List.replicate pb 0).length := by
    rw [hplen]; omega
  rw [hdi]
  have hno : ¬(0 + (List.replicate pf (0 : ℂ) ++ seqs.getD pidx [] ++
      List.replicate pb 0).length < (List.replicate pf (0 : ℂ) ++
      seqs.getD pidx [] ++ List.replicate pb 0).length) := by omega
  rw [if_neg hno]
  dsimp only
  rw [if_neg Bool.false_ne_true]
  rw [List.drop_zero, List.take_length]
  have hdtc : min (inputs.getD pidx defaultPortInput).data.length
      (min (len - 0) (outCap - (k + (List.replicate pf (0 : ℂ) ++
        seqs.getD pidx [] ++ List.replicate pb 0).length))) = len := by
    rw [hplen]; omega
  rw [hdtc]
  rw [if_pos hkl]
  have hfin : len ≤ 0 + len := by omega
  rw [if_pos hfin]

/-- Closed witness for `c4_spliced_preamble`: the §8 scenario-1 instance —
a 63-sample all-ones sequence padded by 10 zeros on each side, a tag at
input index 1 carrying packet length 100, and ample output space. -/
theorem c4_spliced_preamble_witness :
    (((List.range portsS8.length).all fun i =>
      (inputsS8.getD i defaultPortInput).data.isEmpty &&
      (inputsS8.getD i defaultPortInput).finished) = false) ∧
    scanPorts portsS8 inputsS8 (List.range portsS8.length) = some (0, 1, 100) ∧
    (MultiPortInserter.new portsS8 seqsS8 10 10).work inputsS8 200 =
      .ok { state := { MultiPortInserter.new portsS8 seqsS8 10 10 with
              port_order :=
                (List.range portsS8.length).filter (fun p => p != 0) ++ [0] },
            consumed := some (0, 1 + 100),
            out := (inputsS8.getD 0 defaultPortInput).data.take 1 ++
              (List.replicate 10 0 ++ seqsS8.getD 0 [] ++ List.replicate 10 0) ++
              ((inputsS8.getD 0 defaultPortInput).data.drop 1).take 100,
            ioFinished := false } := by
  refine ⟨rfl, rfl, ?_⟩
  exact c4_spliced_preamble portsS8 seqsS8 10 10 inputsS8 200 0 1 100 rfl rfl
    (by simp [seqsS8]) (by simp [inputsS8, burstInput])
    (by norm_num [seqsS8])

end FutureSDR
